import Mathlib

/-!
Verification development for the wikiglot lexical-entry extraction engine.

The TypeScript sources are shallowly embedded: strings are lists of
characters (every character exercised here lies in the Basic Multilingual
Plane, where JavaScript UTF-16 code-unit indexing coincides with
code-point indexing), and the JavaScript regular-expression platform is
modelled by a small backtracking matcher with the same leftmost-match,
alternation-priority, greedy/lazy semantics.  Each embedded definition
mirrors one source function.
-/

namespace Wikiglot

/-- Strings are modelled as lists of characters (UTF-16 code units;
all inputs used here are BMP so units and code points coincide). -/
abbrev Str := List Char

def strOf (s : String) : Str := s.toList

/-- ASCII lower-casing; models the JavaScript toLowerCase restricted to the
character set exercised by the embedded code (all non-ASCII characters that
reach it are already lower case). -/
def jsToLower (c : Char) : Char :=
  if 'A' ≤ c ∧ c ≤ 'Z' then Char.ofNat (c.toNat + 32) else c

def jsToUpper (c : Char) : Char :=
  if 'a' ≤ c ∧ c ≤ 'z' then Char.ofNat (c.toNat - 32) else c

/-- The JavaScript regular-expression whitespace class (the members that can
occur in the inputs in scope). -/
def isJsSpace (c : Char) : Bool :=
  c = ' ' ∨ c = '\t' ∨ c = '\n' ∨ c = '\r' ∨ c = Char.ofNat 11 ∨
    c = Char.ofNat 12 ∨ c = Char.ofNat 160

def isJsWord (c : Char) : Bool :=
  ('a' ≤ c ∧ c ≤ 'z') ∨ ('A' ≤ c ∧ c ≤ 'Z') ∨ ('0' ≤ c ∧ c ≤ '9') ∨ c = '_'

def isJsDigit (c : Char) : Bool := '0' ≤ c ∧ c ≤ '9'

/-- Substring from index a (inclusive) to b (exclusive), like the
two-argument JavaScript slice on in-range arguments. -/
def sub (s : Str) (a b : Nat) : Str := (s.drop a).take (b - a)

/-- JavaScript slice with only a start argument. -/
def sliceFrom (s : Str) (a : Nat) : Str := s.drop a

def jsTrim (s : Str) : Str :=
  ((s.dropWhile (fun c => isJsSpace c)).reverse.dropWhile (fun c => isJsSpace c)).reverse

/-- Index of the first occurrence of needle in s, like indexOf. -/
def strIndexOf (s needle : Str) : Option Nat :=
  (List.range (s.length + 1)).find? (fun i => decide ((s.drop i).take needle.length = needle))

def strIncludes (s needle : Str) : Bool := (strIndexOf s needle).isSome

def strContainsChar (s : Str) (c : Char) : Bool := s.contains c

-- ---------------------------------------------------------------------------
-- Regular-expression abstract syntax and backtracking matcher.
-- ---------------------------------------------------------------------------

/-- One atom of a character class. -/
inductive CI where
  | ch (c : Char)
  | range (lo hi : Char)
  | spaceC
  | wordC
  | digitC
  | notSpaceC
deriving DecidableEq

/-- Regular-expression abstract syntax covering the constructs used by the
embedded source patterns. -/
inductive RE where
  | eps
  | ch (c : Char)
  | cls (neg : Bool) (items : List CI)
  | anyAll
  | dot
  | seq (a b : RE)
  | alt (a b : RE)
  | rep (lo : Nat) (hi : Option Nat) (lazy : Bool) (r : RE)
  | grp (i : Nat) (r : RE)
  | look (r : RE)
  | bref (i : Nat)
  | bol
  | wordB
deriving DecidableEq

def ciMatches1 (item : CI) (c : Char) : Bool :=
  match item with
  | .ch d => c = d
  | .range lo hi => lo ≤ c ∧ c ≤ hi
  | .spaceC => isJsSpace c
  | .wordC => isJsWord c
  | .digitC => isJsDigit c
  | .notSpaceC => !isJsSpace c

def ciMatches (ci : Bool) (item : CI) (c : Char) : Bool :=
  ciMatches1 item c ||
    (ci && (ciMatches1 item (jsToLower c) || ciMatches1 item (jsToUpper c)))

def clsMatches (ci : Bool) (neg : Bool) (items : List CI) (c : Char) : Bool :=
  let hit := items.any (fun it => ciMatches ci it c)
  if neg then !hit else hit

abbrev Caps := Nat → Option (Nat × Nat)

def capsEmpty : Caps := fun _ => none

def capsSet (caps : Caps) (i : Nat) (v : Nat × Nat) : Caps :=
  fun j => if j = i then some v else caps j

def charEqCI (ci : Bool) (a b : Char) : Bool :=
  a = b || (ci && jsToLower a = jsToLower b)

/-- Backtracking matcher in continuation-passing style.  The continuation
receives the remaining input, the absolute position and the captures.  The
fuel bounds the number of matcher steps; every concrete pattern and input in
this development is matched well inside the supplied fuel, so the fuel is
only a termination device for the embedding of the (always-terminating)
platform matcher. -/
def reM (cif : Bool) (orig : Str) :
    Nat → RE → Str → Nat → Caps →
    (Str → Nat → Caps → Option (Nat × Caps)) → Option (Nat × Caps)
  | 0, _, _, _, _, _ => none
  | Nat.succ fu, re, rest, pos, caps, k =>
    match re with
    | .eps => k rest pos caps
    | .ch c =>
      match rest with
      | [] => none
      | d :: rest' => if charEqCI cif c d then k rest' (pos + 1) caps else none
    | .cls neg items =>
      match rest with
      | [] => none
      | d :: rest' => if clsMatches cif neg items d then k rest' (pos + 1) caps else none
    | .anyAll =>
      match rest with
      | [] => none
      | _ :: rest' => k rest' (pos + 1) caps
    | .dot =>
      match rest with
      | [] => none
      | d :: rest' =>
        if d = '\n' ∨ d = '\r' ∨ d = Char.ofNat 0x2028 ∨ d = Char.ofNat 0x2029 then none
        else k rest' (pos + 1) caps
    | .seq a b =>
      reM cif orig fu a rest pos caps (fun rest' pos' caps' =>
        reM cif orig fu b rest' pos' caps' k)
    | .alt a b =>
      match reM cif orig fu a rest pos caps k with
      | some r => some r
      | none => reM cif orig fu b rest pos caps k
    | .rep lo hi lz r =>
      match lo with
      | Nat.succ lo' =>
        reM cif orig fu r rest pos caps (fun rest' pos' caps' =>
          reM cif orig fu (.rep lo' (hi.map Nat.pred) lz r) rest' pos' caps' k)
      | 0 =>
        match hi with
        | some 0 => k rest pos caps
        | _ =>
          let iter := fun (_ : Unit) =>
            reM cif orig fu r rest pos caps (fun rest' pos' caps' =>
              if pos' = pos then none
              else reM cif orig fu (.rep 0 (hi.map Nat.pred) lz r) rest' pos' caps' k)
          if lz then
            match k rest pos caps with
            | some res => some res
            | none => iter ()
          else
            match iter () with
            | some res => some res
            | none => k rest pos caps
    | .grp i r =>
      reM cif orig fu r rest pos caps (fun rest' pos' caps' =>
        k rest' pos' (capsSet caps' i (pos, pos')))
    | .look r =>
      match reM cif orig fu r rest pos caps (fun _ _ caps' => some (pos, caps')) with
      | some (_, caps') => k rest pos caps'
      | none => none
    | .bref i =>
      match caps i with
      | none => k rest pos caps
      | some (a, b) =>
        let needle := sub orig a b
        let rec eat : Str → Str → Nat → Option (Str × Nat)
          | [], rest', pos' => some (rest', pos')
          | c :: cs, d :: rest', pos' =>
            if charEqCI cif c d then eat cs rest' (pos' + 1) else none
          | _ :: _, [], _ => none
        match eat needle rest pos with
        | some (rest', pos') => k rest' pos' caps
        | none => none
    | .bol => if pos = 0 then k rest pos caps else none
    | .wordB =>
      let before := match orig.get? (pos - 1) with
        | some c => pos ≠ 0 && isJsWord c
        | none => false
      let after := match rest with
        | c :: _ => isJsWord c
        | [] => false
      if before ≠ after then k rest pos caps else none

/-- Result of a successful regex search: start, end position and captures. -/
structure Mres where
  start : Nat
  stop : Nat
  caps : Caps

def reFuel : Nat := 400000

def kAccept : Str → Nat → Caps → Option (Nat × Caps) :=
  fun _ pos caps => some (pos, caps)

/-- Leftmost match search starting at the given suffix/position pair. -/
def reFindLoop (cif : Bool) (re : RE) (orig : Str) : Str → Nat → Option Mres
  | rest, pos =>
    match reM cif orig reFuel re rest pos capsEmpty kAccept with
    | some (stop, caps) => some ⟨pos, stop, caps⟩
    | none =>
      match rest with
      | [] => none
      | _ :: rest' => reFindLoop cif re orig rest' (pos + 1)

/-- First match of re in s (the JavaScript match / exec without the global
flag). -/
def reFind (cif : Bool) (re : RE) (s : Str) : Option Mres :=
  reFindLoop cif re s s 0

def reTest (cif : Bool) (re : RE) (s : Str) : Bool := (reFind cif re s).isSome

/-- Index of the first match (JavaScript search; none for -1). -/
def reSearch (cif : Bool) (re : RE) (s : Str) : Option Nat :=
  (reFind cif re s).map (·.start)

/-- Captured group i of a match as a substring of s, none when the group did
not participate. -/
def mGroup (s : Str) (m : Mres) (i : Nat) : Option Str :=
  (m.caps i).map (fun p => sub s p.1 p.2)

def mGroupD (s : Str) (m : Mres) (i : Nat) : Str := (mGroup s m i).getD []

/-- The whole matched text. -/
def mWhole (s : Str) (m : Mres) : Str := sub s m.start m.stop

/-- All matches in order (the JavaScript exec loop under the global flag);
on an empty match the scan advances by one position, a case no embedded
pattern can reach. -/
def reFindAllGo (cif : Bool) (re : RE) (s : Str) : Nat → Nat → List Mres
  | 0, _ => []
  | Nat.succ fu, pos =>
    if pos > s.length then []
    else
      match reFindLoop cif re s (s.drop pos) pos with
      | none => []
      | some m =>
        m :: reFindAllGo cif re s fu (if m.stop = m.start then m.stop + 1 else m.stop)

def reFindAll (cif : Bool) (re : RE) (s : Str) : List Mres :=
  reFindAllGo cif re s (s.length + 1) 0

/-- Replace every match by the image of the replacement function
(JavaScript replace with the global flag). -/
def reReplaceAllGo (cif : Bool) (re : RE) (s : Str) (f : Mres → Str) : Nat → Nat → Str
  | 0, pos => s.drop pos
  | Nat.succ fu, pos =>
    if pos > s.length then []
    else
      match reFindLoop cif re s (s.drop pos) pos with
      | none => s.drop pos
      | some m =>
        sub s pos m.start ++ f m ++
          (if m.stop = m.start then
            (match (s.drop m.stop).take 1 with
             | [] => []
             | c => c) ++ reReplaceAllGo cif re s f fu (m.stop + 1)
          else reReplaceAllGo cif re s f fu m.stop)

def reReplaceAllFn (cif : Bool) (re : RE) (s : Str) (f : Mres → Str) : Str :=
  reReplaceAllGo cif re s f (s.length + 1) 0

def reReplaceAll (cif : Bool) (re : RE) (s : Str) (repl : Str) : Str :=
  reReplaceAllFn cif re s (fun _ => repl)

/-- Replace only the first match (JavaScript replace without the global
flag). -/
def reReplaceFirst (cif : Bool) (re : RE) (s : Str) (repl : Str) : Str :=
  match reFind cif re s with
  | none => s
  | some m => sub s 0 m.start ++ repl ++ s.drop m.stop

-- Smart constructors for readable pattern definitions.

def lit (s : String) : RE := s.toList.foldr (fun c r => RE.seq (RE.ch c) r) RE.eps

def rcat (rs : List RE) : RE := rs.foldr RE.seq RE.eps

def raltL (rs : List RE) : RE :=
  match rs with
  | [] => RE.eps
  | r :: rest => rest.foldl RE.alt r

def litChars (s : String) : List CI := s.toList.map CI.ch

/-- Negated character class over the listed characters. -/
def nc (s : String) : RE := RE.cls true (litChars s)

/-- Positive character class over the listed characters. -/
def cc (s : String) : RE := RE.cls false (litChars s)

def rstar (r : RE) : RE := RE.rep 0 none false r
def rstarL (r : RE) : RE := RE.rep 0 none true r
def rplus (r : RE) : RE := RE.rep 1 none false r
def ropt (r : RE) : RE := RE.rep 0 (some 1) false r
def rrepL (lo hi : Nat) (r : RE) : RE := RE.rep lo (some hi) true r

/-- The class [\s\S]. -/
def anyA : RE := RE.anyAll

def litS (s : Str) : RE := s.foldr (fun c r => RE.seq (RE.ch c) r) RE.eps

def spaceCl : RE := RE.cls false [CI.spaceC]
def wordCl : RE := RE.cls false [CI.wordC]
def digitCl : RE := RE.cls false [CI.digitC]
def notSpaceCl : RE := RE.cls false [CI.notSpaceC]

def toLowerStr (s : Str) : Str := s.map jsToLower

def joinComma (ws : List Str) : Str := List.intercalate (strOf ", ") ws

-- ---------------------------------------------------------------------------
-- decodeHTMLEntities (shared helper of the parser modules).
-- ---------------------------------------------------------------------------

def parseDec (s : Str) : Nat := s.foldl (fun n c => n * 10 + (c.toNat - 48)) 0

def hexVal (c : Char) : Nat :=
  if isJsDigit c then c.toNat - 48
  else if 'a' ≤ c ∧ c ≤ 'f' then c.toNat - 87
  else if 'A' ≤ c ∧ c ≤ 'F' then c.toNat - 55
  else 0

def parseHex (s : Str) : Nat := s.foldl (fun n c => n * 16 + hexVal c) 0

/-- String.fromCharCode for one code unit; every value reached in this
development is a valid BMP scalar, where Char.ofNat agrees with the
JavaScript primitive. -/
def fromCharCode (n : Nat) : Str := [Char.ofNat n]

def reDecEntity : RE := rcat [lit "&#", RE.grp 1 (rplus digitCl), lit ";"]

def hexDigitCls : RE :=
  RE.cls false [CI.range '0' '9', CI.range 'a' 'f', CI.range 'A' 'F']

def reHexEntity : RE := rcat [lit "&#x", RE.grp 1 (rplus hexDigitCls), lit ";"]

/-- Embeds decodeHTMLEntities: the fixed chain of global replaces. -/
def decodeHTMLEntities (text : Str) : Str :=
  let t1 := reReplaceAll false (lit "&nbsp;") text (strOf " ")
  let t2 := reReplaceAll false (lit "&quot;") t1 (strOf "\"")
  let t3 := reReplaceAll false (lit "&#39;") t2 [Char.ofNat 39]
  let t4 := reReplaceAll false (lit "&amp;") t3 (strOf "&")
  let t5 := reReplaceAll false (lit "&lt;") t4 (strOf "<")
  let t6 := reReplaceAll false (lit "&gt;") t5 (strOf ">")
  let t7 := reReplaceAllFn false reDecEntity t6
    (fun m => fromCharCode (parseDec (mGroupD t6 m 1)))
  reReplaceAllFn false reHexEntity t7
    (fun m => fromCharCode (parseHex (mGroupD t7 m 1)))

-- ---------------------------------------------------------------------------
-- Shared regular expressions of the parser modules.
-- ---------------------------------------------------------------------------

/-- The tag pattern <[^>]+> . -/
def reTagG : RE := rcat [lit "<", rplus (nc ">"), lit ">"]

/-- The tag pattern <[^>]*> (used for the language cell of translation
rows). -/
def reTagS : RE := rcat [lit "<", rstar (nc ">"), lit ">"]

/-- The whitespace-run pattern \s+ . -/
def reSpaces : RE := rplus spaceCl

/-- Next-language boundary: h2 with any id (no flags in the source). -/
def reNextH2 : RE :=
  rcat [lit "<h2", rstar (nc ">"), lit "id=\"", rstar (nc "\""), lit "\"",
    rstar (nc ">"), lit ">"]

def reNextH345 : RE := rcat [lit "<h", cc "345", rstar (nc ">"), lit "id=\""]
def reNextH234 : RE := rcat [lit "<h", cc "234", rstar (nc ">"), lit "id=\""]
def reNextH23 : RE := rcat [lit "<h", cc "23", rstar (nc ">"), lit "id=\""]

/-- Language heading pattern, parameterised by the display name. -/
def reLangSection (name : Str) : RE :=
  rcat [lit "<h2", rstar (nc ">"), lit "id=\"", litS name, lit "\"",
    rstar (nc ">"), lit ">", litS name, lit "</h2>"]

/-- Container-tolerant language heading fallback. -/
def reLangFlex (name : Str) : RE :=
  rcat [lit "id=\"", litS name, lit "\"", rrepL 0 50 anyA, lit ">",
    litS name, lit "</h2>"]

/-- Cross-reference wiki link with href and text groups. -/
def reWikiLink : RE :=
  rcat [lit "<a", rstar (nc ">"), lit "href=\"/wiki/",
    RE.grp 1 (rplus (nc "\"#")), lit "\"", rstar (nc ">"), lit ">",
    RE.grp 2 (rplus (nc "<")), lit "</a>"]

/-- Ordered-list block with lazy body group. -/
def reOl : RE :=
  rcat [lit "<ol", rstar (nc ">"), lit ">", RE.grp 1 (rstarL anyA), lit "</ol>"]

/-- List item delimited by a lookahead for the next list token. -/
def reLi : RE :=
  rcat [lit "<li", rstar (nc ">"), lit ">", RE.grp 1 (rstarL anyA),
    RE.look (raltL [lit "</li>", lit "<ol>", lit "<li>"])]

def reOlBlock : RE := rcat [lit "<ol", rstarL anyA, lit "</ol>"]
def reUlBlock : RE := rcat [lit "<ul", rstarL anyA, lit "</ul>"]
def reDivBlock : RE := rcat [lit "<div", rstarL anyA, lit "</div>"]
def reDlBlock : RE := rcat [lit "<dl", rstarL anyA, lit "</dl>"]

/-- Gate for genuine definitions: the stripped item must open, optionally
after one function word, with a cross-reference link. -/
def reAccept : RE :=
  rcat [RE.bol, rstar spaceCl, ropt (rcat [rplus wordCl, rplus spaceCl]),
    lit "<a", rstar (nc ">"), lit "href=\"/wiki/"]

-- ---------------------------------------------------------------------------
-- enWiktionaryParser: data model and helpers.
-- ---------------------------------------------------------------------------

structure VerbFormInfo where
  baseVerb : Str
  formType : Str
deriving DecidableEq

structure TranslationWithMeaning where
  translation : Str
  transliteration : Option Str := none
  dialect : Option Str := none
  meaning : Str
deriving DecidableEq

structure WordTypeTranslations where
  wordType : Str
  translations : List TranslationWithMeaning
  verbForm : Option VerbFormInfo := none
deriving DecidableEq

/-- Slice from the start of a heading match to the next match of the given
boundary pattern after it (or the end of the input). -/
def sliceSection (html : Str) (m : Mres) (nextRe : RE) (ciNext : Bool) : Str :=
  let rest := html.drop m.stop
  match reFind ciNext nextRe rest with
  | some nm => sub html m.start (m.stop + nm.start)
  | none => sub html m.start html.length

/-- First list item of the first ordered list of a region (the input the
morphological form detector inspects). -/
def firstLiOf (sectionHtml : Str) : Option Str :=
  match reFind false reOl sectionHtml with
  | none => none
  | some om =>
    let firstOl := mGroupD sectionHtml om 1
    match reFind false reLi firstOl with
    | none => none
    | some lm => some (mGroupD firstOl lm 1)

/-- The alternation (?:<[^>]+>|\s) that lets template words carry inline
markup. -/
def tos : RE := RE.alt reTagG spaceCl
def tosP : RE := rplus tos
def tosS : RE := rstar tos

/-- Letter class of the foreign-form patterns, including the extended Latin
letters with acute accents, macrons and breves. -/
def vfLetters : RE :=
  RE.cls false ([CI.range 'a' 'z', CI.range 'A' 'Z'] ++
    litChars "áéíóúñüāēīōūăĕĭŏŭ")

def vfGrp : RE := RE.grp 1 (rplus vfLetters)

def tenseAlt : RE :=
  raltL [lit "present", lit "past", lit "future", lit "imperfect",
    lit "preterite", lit "conditional", lit "subjunctive", lit "imperative"]

/-- The priority-ordered template catalogue of detectVerbForm. -/
def verbFormPatterns : List RE :=
  [ rcat [lit "inflection", tosP, lit "of", tosP, vfGrp],
    rcat [lit "simple", tosP, lit "past", ropt (rcat [tosP, lit "tense"]), tosP,
      ropt (rcat [lit "and", tosP, lit "past", tosP, lit "participle", tosP]),
      lit "of", tosP, vfGrp],
    rcat [RE.alt (lit "present") (lit "past"), tosP, lit "participle",
      ropt (rcat [tosP, lit "and", tosP, lit "gerund"]), tosP, lit "of", tosP, vfGrp],
    rcat [lit "gerund", tosP, lit "of", tosP, vfGrp],
    rcat [raltL [lit "first", lit "second", lit "third"], rrepL 0 150 anyA,
      lit "person", rrepL 1 200 anyA, RE.alt (lit "singular") (lit "plural"),
      rrepL 1 150 anyA, tenseAlt, rrepL 1 150 anyA, lit "of", rrepL 1 50 anyA,
      rstar reTagG, vfGrp],
    rcat [lit "past", tosP, RE.alt (lit "tense") (lit "participle"), tosP,
      lit "of", tosP, vfGrp],
    rcat [lit "present", tosP, ropt (lit "tense"), tosS, lit "of", tosP, vfGrp] ]

/-- The separator pattern \s+of\s+ used to cut the form description. -/
def reOfSep : RE := rcat [rplus spaceCl, lit "of", rplus spaceCl]

/-- Base verb and form-type extraction shared by both detectors. -/
def extractFormType (s : Str) (m : Mres) : VerbFormInfo :=
  let baseVerb := jsTrim (mGroupD s m 1)
  let cleanMatch := jsTrim (reReplaceAll false reTagG (mWhole s m) [])
  let formType :=
    match reSearch true reOfSep cleanMatch with
    | some i => jsTrim (sub cleanMatch 0 i)
    | none => cleanMatch
  ⟨baseVerb, formType⟩

/-- Embeds detectVerbForm: first-match-wins over the template catalogue
applied to the first definition item. -/
def detectVerbForm (languageSection : Str) : Option VerbFormInfo :=
  match firstLiOf languageSection with
  | none => none
  | some firstDefinition =>
    verbFormPatterns.findSome? (fun p =>
      (reFind true p firstDefinition).map (extractFormType firstDefinition))

def vfLettersEn : RE := RE.cls false [CI.range 'a' 'z', CI.range 'A' 'Z']
def vfGrpEn : RE := RE.grp 1 (rplus vfLettersEn)

/-- The alternation (?:<[^>]+>|\s|-) of the English person pattern. -/
def tosD : RE := raltL [reTagG, spaceCl, RE.ch '-']

/-- The priority-ordered template catalogue of detectEnglishVerbForm. -/
def englishVerbFormPatterns : List RE :=
  [ rcat [lit "inflection", tosP, lit "of", tosP, vfGrpEn],
    rcat [lit "simple", tosP, lit "past", ropt (rcat [tosP, lit "tense"]), tosP,
      ropt (rcat [lit "and", tosP, lit "past", tosP, lit "participle", tosP]),
      lit "of", tosP, vfGrpEn],
    rcat [lit "present", tosP, lit "participle", tosP,
      ropt (rcat [lit "and", tosP, lit "gerund", tosP]), lit "of", tosP, vfGrpEn],
    rcat [lit "past", tosP, lit "participle", tosP,
      ropt (rcat [lit "and", tosP, lit "past", tosP, lit "participle", tosP]),
      lit "of", tosP, vfGrpEn],
    rcat [lit "gerund", tosP, lit "of", tosP, vfGrpEn],
    rcat [raltL [lit "first", lit "second", lit "third"], rplus tosD,
      lit "person", tosP, RE.alt (lit "singular") (lit "plural"), tosP,
      raltL [lit "present", lit "past", lit "future", lit "imperfect", lit "preterite"],
      tosP, ropt (RE.alt (lit "indicative") (lit "subjunctive")), tosS,
      lit "of", tosP, vfGrpEn],
    rcat [lit "past", tosP, lit "tense", tosP, lit "of", tosP, vfGrpEn],
    rcat [lit "present", tosP, ropt (rcat [lit "tense", tosP]), lit "of", tosP, vfGrpEn] ]

def reEnglishH2 : RE :=
  rcat [lit "<h2", rstar (nc ">"), lit "id=\"English\"", rstar (nc ">"),
    lit ">English</h2>"]

/-- English verb heading with a word boundary before the id attribute. -/
def reVerbSection : RE :=
  rcat [lit "<h", cc "34", rstar (nc ">"), RE.wordB, lit "id=\"Verb",
    ropt (rcat [lit "_", rplus digitCl]), lit "\"", rstar (nc ">"),
    lit ">Verb</h", cc "34", lit ">"]

/-- Embeds detectEnglishVerbForm. -/
def detectEnglishVerbForm (html : Str) : Option VerbFormInfo :=
  match reFind true reEnglishH2 html with
  | none => none
  | some em =>
    let englishSection := sliceSection html em reNextH2 false
    match reFind true reVerbSection englishSection with
    | none => none
    | some vm =>
      let verbSection := sliceSection englishSection vm reNextH234 true
      match firstLiOf verbSection with
      | none => none
      | some firstDefinition =>
        englishVerbFormPatterns.findSome? (fun p =>
          (reFind true p firstDefinition).map (extractFormType firstDefinition))

-- ---------------------------------------------------------------------------
-- parseEnglishWiktionaryForeignWord.
-- ---------------------------------------------------------------------------

/-- Alternate-spelling redirect table (ja-see / zh-see). -/
def reSeeTable : RE :=
  rcat [lit "<table", rstar (nc ">"), lit "class=\"", rstar (nc "\""),
    RE.alt (lit "ja-see") (lit "zh-see"), rstar (nc "\""), lit "\"",
    rstar (nc ">"), lit ">", RE.grp 1 (rstarL anyA), lit "</table>"]

/-- Bracketed word-type definition row of a ja-see table. -/
def reJaDef : RE :=
  rcat [lit "<span", rstar (nc ">"), lit ">", rstarL anyA, lit "[",
    RE.grp 1 (rplus (RE.cls true [CI.ch ']'])), lit "]", rstarL anyA,
    lit "</span>", RE.grp 2 (rstarL anyA),
    RE.look (RE.alt (lit "</td>") (lit "</dd>"))]

/-- CJK Unified Ideograph test class. -/
def reCJK : RE := RE.cls false [CI.range (Char.ofNat 0x4E00) (Char.ofNat 0x9FFF)]

/-- Inline gloss of a zh-see table. -/
def reSeeMeaning : RE :=
  rcat [lit "see", rplus spaceCl, rplus notSpaceCl, rplus spaceCl, lit "(",
    RE.grp 1 (rplus (nc ")")), lit ")"]

def reLeadColon : RE := rcat [RE.bol, lit ":", rstar spaceCl]

def reDefnHeading : RE :=
  rcat [lit "<h", cc "34", rstar (nc ">"), lit "id=\"Definitions\"",
    rstar (nc ">"), lit ">Definitions</h", cc "34", lit ">"]

/-- The class of one plain-text character before the first Chinese character
or parenthesis (the source class spells the parenthesis twice). -/
def chBoundaryCls : List CI :=
  [CI.ch '(', CI.ch '(', CI.range (Char.ofNat 0x4E00) (Char.ofNat 0x9FFF)]

def reBeforeChinese : RE :=
  rcat [RE.bol, RE.grp 1 (RE.rep 1 none true (RE.cls true chBoundaryCls)),
    RE.cls false chBoundaryCls]

/-- Exact-id part-of-speech heading. -/
def reType1 (name : Str) : RE :=
  rcat [lit "<h", cc "34", rstar (nc ">"), lit "id=\"", litS name,
    rstar (nc "\""), lit "\"", rstar (nc ">"), lit ">", litS name,
    lit "</h", cc "34", lit ">"]

/-- Suffix-tolerant part-of-speech heading. -/
def reType2 (name : Str) : RE :=
  rcat [lit "<h", cc "34", rstar (nc ">"), lit "id=\"", rstar (nc "\""),
    litS name, rstar (nc "\""), lit "\"", rstar (nc ">"), lit ">", litS name,
    lit "</h", cc "34", lit ">"]

/-- Container-wrapped part-of-speech heading. -/
def reType3 (name : Str) : RE :=
  rcat [lit "id=\"", litS name, rstar (nc "\""), lit "\"", rrepL 0 50 anyA,
    lit ">", litS name, lit "</h", cc "34", lit ">"]

/-- The recognised part-of-speech labels, in scan order. -/
def wordTypesList : List (Str × Str) :=
  [ (strOf "noun", strOf "Noun"), (strOf "verb", strOf "Verb"),
    (strOf "participle", strOf "Participle"),
    (strOf "adjective", strOf "Adjective"), (strOf "adverb", strOf "Adverb"),
    (strOf "pronoun", strOf "Pronoun"),
    (strOf "preposition", strOf "Preposition"),
    (strOf "conjunction", strOf "Conjunction"),
    (strOf "interjection", strOf "Interjection"),
    (strOf "numeral", strOf "Numeral"), (strOf "phrase", strOf "Phrase") ]

/-- Nested-structure removal applied to a definition item before
inspection: ordered and unordered sub-lists, block containers and the
secondary-definition dl containers. -/
def stripContainers (d0 : Str) : Str :=
  let d1 := reReplaceAll false reOlBlock d0 []
  let d2 := reReplaceAll false reUlBlock d1 []
  let d3 := reReplaceAll false reDivBlock d2 []
  reReplaceAll false reDlBlock d3 []

/-- Valid linked words of a definition (meta and media links excluded). -/
def linkWordsOf (definition : Str) : List Str :=
  (reFindAll false reWikiLink definition).filterMap (fun lm =>
    let w := jsTrim (mGroupD definition lm 2)
    if ¬ strIncludes w (strOf "Appendix:") ∧ ¬ strIncludes w (strOf "File:") ∧
        w.length > 0 then some w else none)

/-- Plain-text rendition of a definition item used by the no-link
fallback. -/
def plainDefOf (definition : Str) : Str :=
  let p1 := reReplaceAll false reTagG definition []
  let p2 := decodeHTMLEntities p1
  reReplaceAll false reSpaces (jsTrim p2) (strOf " ")

/-- First segment of the split on commas and semicolons. -/
def splitFirstCS (s : Str) : Str :=
  s.takeWhile (fun c => ¬ (c = ',' ∨ c = ';'))

/-- Embeds the body of the definition-item loop of the main word-type scan:
the entries one list item contributes. -/
def processLiItem (raw : Str) : List TranslationWithMeaning :=
  let definition := stripContainers raw
  if ¬ reTest false reAccept definition then []
  else
    let englishWords := linkWordsOf definition
    if englishWords ≠ [] then
      let meaning := joinComma englishWords
      englishWords.map (fun w => { translation := w, meaning := meaning })
    else
      let plainDef := plainDefOf definition
      if plainDef ≠ [] ∧ plainDef.length < 200 then
        [{ translation := jsTrim (splitFirstCS plainDef), meaning := plainDef }]
      else []

/-- The list items of the first ordered list of a region. -/
def liItemsOf (typeSection : Str) : List Str :=
  match reFind false reOl typeSection with
  | none => []
  | some om =>
    let ol1 := mGroupD typeSection om 1
    (reFindAll false reLi ol1).map (fun m => mGroupD ol1 m 1)

/-- One part-of-speech group of the main scan (none when the heading is
absent or no entry survives). -/
def parseTypeGroup (languageSection : Str) (verbFormInfo : Option VerbFormInfo)
    (ty : Str × Str) : Option WordTypeTranslations :=
  let found :=
    match reFind true (reType1 ty.2) languageSection with
    | some m => some m
    | none =>
      match reFind true (reType2 ty.2) languageSection with
      | some m => some m
      | none => reFind true (reType3 ty.2) languageSection
  match found with
  | none => none
  | some m =>
    let typeSection := sliceSection languageSection m reNextH345 false
    let sectionVerbForm := detectVerbForm typeSection
    let translations := (liItemsOf typeSection).flatMap processLiItem
    if translations ≠ [] then
      some { wordType := ty.1, translations := translations,
             verbForm :=
               match sectionVerbForm with
               | some v => some v
               | none =>
                 if verbFormInfo.isSome ∧
                     (ty.1 = strOf "verb" ∨ ty.1 = strOf "participle") then
                   verbFormInfo
                 else none }
    else none

/-- Word-type groups of a ja-see redirect table. -/
def jaGroupsOf (tableContent : Str) : List WordTypeTranslations :=
  (reFindAll true reJaDef tableContent).filterMap (fun m =>
    let wordType := toLowerStr (jsTrim (mGroupD tableContent m 1))
    let definitionContent := mGroupD tableContent m 2
    let englishWords := linkWordsOf definitionContent
    if englishWords ≠ [] then
      let m1 := reReplaceAll false reTagG definitionContent (strOf " ")
      let m2 := reReplaceAll false reSpaces (jsTrim (decodeHTMLEntities m1)) (strOf " ")
      let meaningText := reReplaceFirst false reLeadColon m2 []
      let meaning := if meaningText ≠ [] then meaningText else joinComma englishWords
      some { wordType := wordType,
             translations := englishWords.map (fun w =>
               { translation := w, meaning := meaning }) }
    else none)

/-- English words of a zh-see redirect table. -/
def zhWordsOf (tableContent : Str) : List Str :=
  (reFindAll false reWikiLink tableContent).filterMap (fun lm =>
    let href := mGroupD tableContent lm 1
    let w := jsTrim (mGroupD tableContent lm 2)
    if ¬ reTest false reCJK w ∧ ¬ strIncludes href (strOf "Appendix:") ∧
        ¬ strIncludes href (strOf "File:") ∧ ¬ strIncludes href (strOf "http") ∧
        ¬ strIncludes href (strOf "Simplified_Chinese") ∧
        ¬ strIncludes href (strOf "Traditional_Chinese") ∧
        w.length > 0 ∧ w.length < 50 then some w else none)

/-- The single interjection group of a zh-see redirect table. -/
def zhGroupOf (tableContent : Str) : List WordTypeTranslations :=
  let englishWords := zhWordsOf tableContent
  if englishWords ≠ [] then
    let m1 := reReplaceAll false reTagG tableContent (strOf " ")
    let m2 := reReplaceAll false reSpaces (jsTrim (decodeHTMLEntities m1)) (strOf " ")
    let meaningText :=
      match reFind false reSeeMeaning m2 with
      | some sm => mGroupD m2 sm 1
      | none => joinComma englishWords
    [{ wordType := strOf "interjection",
       translations := englishWords.map (fun w =>
         { translation := w, meaning := meaningText }) }]
  else []

/-- English words of one Chinese definition item. -/
def chineseLinkWords (definition : Str) : List Str :=
  (reFindAll false reWikiLink definition).filterMap (fun lm =>
    let w := jsTrim (mGroupD definition lm 2)
    if ¬ reTest false reCJK w ∧ ¬ strIncludes w (strOf "Appendix:") ∧
        ¬ strIncludes w (strOf "File:") ∧ ¬ strIncludes w (strOf "Classifier:") ∧
        w.length > 0 then some w else none)

/-- One entry of the Chinese Definitions scan (the source also computes a
truncated meaning text that the emitted entry does not use). -/
def processChineseLi (raw : Str) : Option TranslationWithMeaning :=
  let d1 := reReplaceAll false reOlBlock raw []
  let d2 := reReplaceAll false reUlBlock d1 []
  let definition := reReplaceAll false reDivBlock d2 []
  let linked := chineseLinkWords definition
  let englishWords :=
    if linked = [] then
      let p1 := reReplaceAll false reTagG definition (strOf " ")
      let plainText := jsTrim (decodeHTMLEntities p1)
      match reFind false reBeforeChinese plainText with
      | some bm =>
        let englishPart := jsTrim (mGroupD plainText bm 1)
        if englishPart.length > 0 ∧ englishPart.length < 100 then [englishPart] else []
      | none => []
    else linked
  if englishWords ≠ [] then
    some { translation := englishWords.headI, meaning := joinComma englishWords }
  else none

/-- The Chinese Definitions-section group. -/
def chineseDefGroup (languageSection : Str) : Option WordTypeTranslations :=
  match reFind true reDefnHeading languageSection with
  | none => none
  | some dm =>
    let definitionsSection := sliceSection languageSection dm reNextH345 false
    let translations := (liItemsOf definitionsSection).filterMap processChineseLi
    if translations ≠ [] then
      some { wordType := strOf "noun", translations := translations }
    else none

/-- Embeds parseEnglishWiktionaryForeignWord: redirect tables first, then
the Chinese Definitions layout, then the common word-type scan. -/
def parseEnglishWiktionaryForeignWord (html : Str) (sourceLanguage : Str) :
    List WordTypeTranslations :=
  let langMatch :=
    match reFind true (reLangSection sourceLanguage) html with
    | some m => some m
    | none => reFind true (reLangFlex sourceLanguage) html
  match langMatch with
  | none => []
  | some lm =>
    let languageSection := sliceSection html lm reNextH2 false
    let redirectResult :=
      match reFind true reSeeTable languageSection with
      | none => []
      | some tm =>
        let tableContent := mGroupD languageSection tm 1
        let jaGroups := jaGroupsOf tableContent
        if jaGroups = [] ∧ sourceLanguage = strOf "Chinese" then
          zhGroupOf tableContent
        else jaGroups
    if redirectResult ≠ [] then redirectResult
    else
      let verbFormInfo := detectVerbForm languageSection
      let chineseResult :=
        if sourceLanguage = strOf "Chinese" then chineseDefGroup languageSection
        else none
      match chineseResult with
      | some g => [g]
      | none => wordTypesList.filterMap (parseTypeGroup languageSection verbFormInfo)

-- ---------------------------------------------------------------------------
-- Language configuration.
-- ---------------------------------------------------------------------------

/-- The static language-code to display-name table. -/
def LANGUAGE_NAMES : List (Str × Str) :=
  [ (strOf "en", strOf "English"), (strOf "es", strOf "Spanish"),
    (strOf "fr", strOf "French"), (strOf "it", strOf "Italian"),
    (strOf "de", strOf "German"), (strOf "pt", strOf "Portuguese"),
    (strOf "sv", strOf "Swedish"), (strOf "id", strOf "Indonesian"),
    (strOf "sw", strOf "Swahili"), (strOf "tr", strOf "Turkish"),
    (strOf "ar", strOf "Arabic"), (strOf "ko", strOf "Korean"),
    (strOf "zh", strOf "Chinese"), (strOf "ja", strOf "Japanese") ]

def lookupLang (code : Str) : Option Str :=
  (LANGUAGE_NAMES.find? (fun p => p.1 = code)).map (·.2)

def supportedLanguages : List Str := LANGUAGE_NAMES.map (·.1)

-- ---------------------------------------------------------------------------
-- htmlParser: translation tables of the pivot-language section.
-- ---------------------------------------------------------------------------

/-- Part-of-speech heading with captured id and optional numeric suffix. -/
def reTypeHeading (name : Str) : RE :=
  rcat [lit "<h", cc "34", rstar (nc ">"), lit "id=\"",
    RE.grp 1 (rcat [litS name, ropt (rcat [lit "_", rplus digitCl])]),
    lit "\"", rstar (nc ">"), lit ">"]

def reH34Level : RE := rcat [lit "<h", RE.grp 1 (cc "34")]

def reTransHeading : RE :=
  rcat [lit "<h", cc "45", rstar (nc ">"), lit "id=\"", rstar (nc "\""),
    lit "Translations", rstar (nc "\""), lit "\"", rstar (nc ">"), lit ">"]

def reGtChar : RE := lit ">"

def reTransSub : RE := rcat [lit "<h", cc "45", rstar (nc ">"), lit "id=\""]

/-- Collapsed subpage pointer inside a translations box. -/
def reRedirectNav : RE :=
  rcat [lit "<div class=\"", ropt (lit "pseudo "), lit "NavFrame\"",
    rstar (nc ">"), lit ">", rstarL anyA, lit "<div class=\"NavHead\"",
    rstar (nc ">"), lit ">", rstarL RE.dot, lit "See", rplus spaceCl,
    lit "<a", rstar (nc ">"), lit "href=\"", rstar (nc "\""), lit "/wiki/",
    RE.grp 1 (rplus (nc "\"#")),
    ropt (rcat [lit "#", RE.grp 2 (rplus (nc "\""))]), lit "\"",
    rstar (nc ">"), lit ">"]

/-- Gloss-keyed translation box with optional Translations- id, head and
content groups. -/
def reNavFrame : RE :=
  rcat [lit "<div class=\"NavFrame\"",
    ropt (rcat [rstar (nc ">"), lit "id=\"Translations-",
      RE.grp 1 (rstar (nc "\"")), lit "\""]),
    rstar (nc ">"), lit ">", rstarL anyA, lit "<div class=\"NavHead\"",
    rstar (nc ">"), lit ">", RE.grp 2 (rstarL anyA), lit "</div>",
    rstarL anyA, lit "<div class=\"NavContent\">", RE.grp 3 (rstarL anyA),
    lit "</div></div>"]

/-- Translation box of the standalone subpage (no Translations- id group). -/
def reNavFrame2 : RE :=
  rcat [lit "<div class=\"NavFrame\"", rstar (nc ">"), lit ">", rstarL anyA,
    lit "<div class=\"NavHead\"", rstar (nc ">"), lit ">",
    RE.grp 1 (rstarL anyA), lit "</div>", rstarL anyA,
    lit "<div class=\"NavContent\">", RE.grp 2 (rstarL anyA),
    lit "</div></div>"]

/-- Per-language row of a translation box. -/
def reLi2 : RE :=
  rcat [lit "<li>", RE.grp 1 (RE.rep 1 none true (nc ":")), lit ":",
    rstar spaceCl, RE.grp 2 (rstarL anyA), lit "</li>"]

/-- Language-tagged rendering span. -/
def reLangSpan : RE :=
  rcat [lit "<", RE.alt (lit "span") (lit "bdi"), rstar (nc ">"),
    lit "lang=\"", RE.grp 1 (rstar (nc "\"")), lit "\"", rstar (nc ">"),
    lit ">", ropt (rcat [lit "<a", rstar (nc ">"), lit ">"]),
    RE.grp 2 (RE.rep 1 none true (nc "<")), ropt (lit "</a>"),
    lit "</", RE.alt (lit "span") (lit "bdi"), lit ">"]

/-- Transliteration-marked span. -/
def reTrSpan : RE :=
  rcat [lit "<span", rstar (nc ">"), lit "class=\"", rstar (nc "\""),
    RE.wordB, lit "tr", RE.wordB, rstar (nc "\""), lit "\"", rstar (nc ">"),
    lit ">", ropt (rcat [lit "<a", rstar (nc ">"), lit ">"]),
    RE.grp 1 (RE.rep 1 none true (nc "<")), ropt (lit "</a>"),
    lit "</span>"]

def reDl : RE := rcat [lit "<dl>", RE.grp 1 (rstarL anyA), lit "</dl>"]

def reDd : RE :=
  rcat [lit "<dd>", RE.grp 1 (RE.rep 1 none true (nc ":")), lit ":",
    rstar spaceCl, RE.grp 2 (rstarL anyA),
    RE.look (RE.alt (lit "</dd>") (lit "<dd>"))]

structure SpanM where
  pos : Nat
  isTranslit : Bool
  text : Str

/-- Language and transliteration spans of one row content, in positional
order (the stable sort of the source). -/
def spanMatchesOf (content : Str) : List SpanM :=
  let a := (reFindAll false reLangSpan content).map (fun m =>
    SpanM.mk m.start (strIncludes (mGroupD content m 1) (strOf "-Latn"))
      (decodeHTMLEntities (jsTrim (mGroupD content m 2))))
  let b := (reFindAll false reTrSpan content).map (fun m =>
    SpanM.mk m.start true (decodeHTMLEntities (jsTrim (mGroupD content m 1))))
  (a ++ b).mergeSort (fun x y => x.pos ≤ y.pos)

/-- Positional pairing of a rendering with an immediately following
transliteration span; unpaired transliteration spans are dropped. -/
def pairSpans (gloss : Str) (dialect : Option Str) :
    List SpanM → List TranslationWithMeaning
  | [] => []
  | [x] =>
    if ¬ x.isTranslit then
      [{ translation := x.text, dialect := dialect, meaning := gloss }]
    else []
  | x :: y :: rest =>
    if ¬ x.isTranslit then
      if y.isTranslit then
        { translation := x.text, transliteration := some y.text,
          dialect := dialect, meaning := gloss } :: pairSpans gloss dialect rest
      else
        { translation := x.text, dialect := dialect, meaning := gloss } ::
          pairSpans gloss dialect (y :: rest)
    else pairSpans gloss dialect (y :: rest)

def extractTranslationsOf (gloss : Str) (dialect : Option Str) (content : Str) :
    List TranslationWithMeaning :=
  pairSpans gloss dialect (spanMatchesOf content)

/-- Rows of one translation box that belong to the target language. -/
def navFrameRows (targetName : Str) (gloss navContent : Str) :
    List TranslationWithMeaning :=
  (reFindAll false reLi2 navContent).flatMap (fun lm =>
    let language := jsTrim (decodeHTMLEntities
      (reReplaceAll false reTagS (mGroupD navContent lm 1) []))
    if toLowerStr language ≠ toLowerStr targetName then []
    else
      let liContent := mGroupD navContent lm 2
      let generalContent :=
        match strIndexOf liContent (strOf "<dl>") with
        | some i => sub liContent 0 i
        | none => liContent
      let general := extractTranslationsOf gloss none generalContent
      let dialects := (reFindAll false reDl liContent).flatMap (fun dm =>
        let dlContent := mGroupD liContent dm 1
        (reFindAll false reDd dlContent).flatMap (fun ddm =>
          extractTranslationsOf gloss (some (jsTrim (mGroupD dlContent ddm 1)))
            (mGroupD dlContent ddm 2)))
      general ++ dialects)

def emDash : Char := Char.ofNat 0x2014

/-- Entries gathered under one part-of-speech heading occurrence. -/
def translationsFromHeading (html : Str) (targetName : Str) (m : Mres) :
    List TranslationWithMeaning :=
  let headingLevel :=
    (reFind false reH34Level (mWhole html m)).bind (fun hm =>
      mGroup (mWhole html m) hm 1)
  let nextHeadingRe :=
    if headingLevel = some (strOf "3") then reNextH23 else reNextH234
  let sectionStr := sliceSection html m nextHeadingRe true
  match reSearch true reTransHeading sectionStr with
  | none => []
  | some tstart =>
    let translationsSection := sectionStr.drop tstart
    let firstHeadingEnd :=
      match reSearch false reGtChar translationsSection with
      | some i => i + 1
      | none => 0
    let restAfterHeading := translationsSection.drop firstHeadingEnd
    let transEnd :=
      match reSearch true reTransSub restAfterHeading with
      | some i => firstHeadingEnd + i
      | none => translationsSection.length
    let transSection := sub translationsSection 0 transEnd
    if (reFind true reRedirectNav transSection).isSome then []
    else
      (reFindAll false reNavFrame transSection).flatMap (fun nm =>
        let glossRaw := mGroupD transSection nm 2
        let gloss := jsTrim (decodeHTMLEntities
          (reReplaceAll false reTagG glossRaw []))
        let navContent := mGroupD transSection nm 3
        if strContainsChar gloss emDash then []
        else navFrameRows targetName gloss navContent)

/-- The word types the translation-table scan recognises. -/
def twtWordTypes : List (Str × Str) :=
  [ (strOf "noun", strOf "Noun"), (strOf "verb", strOf "Verb"),
    (strOf "adjective", strOf "Adjective"), (strOf "adverb", strOf "Adverb"),
    (strOf "pronoun", strOf "Pronoun"),
    (strOf "preposition", strOf "Preposition"),
    (strOf "conjunction", strOf "Conjunction"),
    (strOf "interjection", strOf "Interjection"),
    (strOf "numeral", strOf "Numeral"), (strOf "phrase", strOf "Phrase") ]

def parseTranslationsForType (html : Str) (targetName : Str) (ty : Str × Str) :
    Option WordTypeTranslations :=
  let allMatches := reFindAll true (reTypeHeading ty.2) html
  if allMatches.length = 0 then none
  else
    let allTranslations :=
      allMatches.flatMap (translationsFromHeading html targetName)
    if allTranslations ≠ [] then
      some { wordType := ty.1, translations := allTranslations }
    else none

/-- Embeds parseWiktionaryTranslationsByType (the source ignores its third
argument beyond its default). -/
def parseWiktionaryTranslationsByType (html : Str) (targetLanguageCode : Str)
    (_sourceLanguageCode : Str) : List WordTypeTranslations :=
  let targetLanguageName := (lookupLang targetLanguageCode).getD targetLanguageCode
  twtWordTypes.filterMap (parseTranslationsForType html targetLanguageName)

/-- Embeds detectTranslationRedirect. -/
def detectTranslationRedirect (html : Str) (wordTypeName : Str) : Option Str :=
  match reFind true (reTypeHeading wordTypeName) html with
  | none => none
  | some m =>
    let headingLevel :=
      (reFind false reH34Level (mWhole html m)).bind (fun hm =>
        mGroup (mWhole html m) hm 1)
    let nextHeadingRe :=
      if headingLevel = some (strOf "3") then reNextH23 else reNextH234
    let sectionStr := sliceSection html m nextHeadingRe true
    match reSearch true reTransHeading sectionStr with
    | none => none
    | some ts =>
      let translationsSection := sub sectionStr ts (ts + 1000)
      (reFind true reRedirectNav translationsSection).bind (fun rm =>
        mGroup translationsSection rm 1)

def reH3Id (name : Str) : RE :=
  rcat [lit "<h3", rstar (nc ">"), lit "id=\"", litS name, lit "\"",
    rstar (nc ">"), lit ">"]

def capitalizeFirst (s : Str) : Str :=
  match s with
  | [] => []
  | c :: r => jsToUpper c :: r

/-- Embeds parseTranslationRedirectPage. -/
def parseTranslationRedirectPage (html : Str) (targetLanguageCode : Str)
    (wordType : Str) : List TranslationWithMeaning :=
  let targetLanguageName := (lookupLang targetLanguageCode).getD targetLanguageCode
  let wordTypeCap := capitalizeFirst wordType
  match reFind true (reH3Id wordTypeCap) html with
  | none => []
  | some m =>
    let sectionStart := m.start
    let restOfHtml := html.drop sectionStart
    let sectionEnd :=
      match reSearch true reNextH23 (restOfHtml.drop 100) with
      | some i => sectionStart + 100 + i
      | none => html.length
    let sectionStr := sub html sectionStart sectionEnd
    (reFindAll false reNavFrame2 sectionStr).flatMap (fun nm =>
      let glossRaw := mGroupD sectionStr nm 1
      let gloss := jsTrim (decodeHTMLEntities
        (reReplaceAll false reTagG glossRaw []))
      let navContent := mGroupD sectionStr nm 2
      if strContainsChar gloss emDash then []
      else
        (reFindAll false reLi2 navContent).flatMap (fun lm =>
          let language := jsTrim (decodeHTMLEntities
            (reReplaceAll false reTagS (mGroupD navContent lm 1) []))
          if toLowerStr language ≠ toLowerStr targetLanguageName then []
          else extractTranslationsOf gloss none (mGroupD navContent lm 2)))

-- ---------------------------------------------------------------------------
-- headwordParser: transliteration extraction.
-- ---------------------------------------------------------------------------

/-- Bullet-and-parenthetical romanization pattern. -/
def reBullet : RE :=
  rcat [RE.ch (Char.ofNat 0x2022), rstar spaceCl, rstar reTagG, lit "(",
    RE.grp 1 (rplus (RE.alt reTagG (nc "<)"))), lit ")"]

/-- Romanization-labelled span. -/
def reRomanSpan : RE :=
  rcat [lit "<span", rstar (nc ">"), lit "class=\"", rstar (nc "\""),
    lit "romanization", rstar (nc "\""), lit "\"", rstar (nc ">"), lit ">",
    RE.grp 1 (rplus (nc "<")), lit "</span>"]

/-- Language-tagged Latin-script element, with a back-reference closing the
tag it opened. -/
def reLatn (code : Str) : RE :=
  rcat [lit "<", RE.grp 1 (raltL [lit "span", lit "b", lit "strong", lit "i"]),
    RE.grp 2 (rstar (nc ">")), RE.wordB, lit "lang=\"", litS code,
    lit "-Latn\"", RE.grp 3 (rstar (nc ">")), lit ">",
    RE.grp 4 (rstarL RE.dot), lit "</", RE.bref 1, lit ">"]

/-- The language-code table of the third fallback (empty for languages with
no tag). -/
def latnCodeOf (languageName : Str) : Str :=
  if languageName = strOf "Arabic" then strOf "ar"
  else if languageName = strOf "Korean" then strOf "ko"
  else if languageName = strOf "Chinese" then strOf "zh"
  else if languageName = strOf "Mandarin" then strOf "zh"
  else if languageName = strOf "Cantonese" then strOf "yue"
  else if languageName = strOf "Japanese" then strOf "ja"
  else []

/-- Embeds extractHeadwordTransliteration: the ordered fallback chain over
the header window of the language section. -/
def extractHeadwordTransliteration (html : Str) (languageName : Str) :
    Option Str :=
  match reFind true (reLangSection languageName) html with
  | none => none
  | some lm =>
    let languageSection := sliceSection html lm reNextH2 false
    let headerSection := sub languageSection 0 (min 10000 languageSection.length)
    let r1 := (reFind false reBullet headerSection).bind (fun m =>
      let t := decodeHTMLEntities
        (jsTrim (reReplaceAll false reTagG (mGroupD headerSection m 1) []))
      if t ≠ [] then some t else none)
    match r1 with
    | some t => some t
    | none =>
      let r2 := (reFind true reRomanSpan languageSection).bind (fun m =>
        let t := decodeHTMLEntities (jsTrim (mGroupD languageSection m 1))
        if t ≠ [] then some t else none)
      match r2 with
      | some t => some t
      | none =>
        let langCode := latnCodeOf languageName
        if langCode = [] then none
        else
          (reFind true (reLatn langCode) headerSection).bind (fun m =>
            let t := decodeHTMLEntities
              (jsTrim (reReplaceAll false reTagG (mGroupD headerSection m 4) []))
            if t ≠ [] then some t else none)

-- ---------------------------------------------------------------------------
-- pronunciationParser.
-- ---------------------------------------------------------------------------

def reIPA : RE :=
  rcat [lit "<span class=\"IPA", rstar (nc "\""), lit "\"", rstar (nc ">"),
    lit ">", RE.grp 1 (rplus (nc "<")), lit "</span>"]

/-- Embeds extractPronunciation. -/
def extractPronunciation (html : Str) : Option Str :=
  match strIndexOf html (strOf "id=\"Pronunciation\"") with
  | none => none
  | some i =>
    let pronunciationSection := sub html i (i + 5000)
    (reFind false reIPA pronunciationSection).bind (fun m =>
      let t := mGroupD pronunciationSection m 1
      if t ≠ [] then some (jsTrim t) else none)

-- ---------------------------------------------------------------------------
-- latinHeadwordParser: principal-part extraction.
-- ---------------------------------------------------------------------------

structure LatinVerbForms where
  firstPersonPresent : Str
  infinitive : Option Str := none
  firstPersonPerfect : Option Str := none
  supine : Option Str := none
deriving DecidableEq

def stripHTMLTags (t : Str) : Str := reReplaceAll false reTagG t []

/-- Latin verb headword line pattern, headword and annotation groups. -/
def reLatinHeadword : RE :=
  rcat [lit "<span", rstar (nc ">"), lit "class=\"", rstar (nc "\""),
    lit "headword-line", rstar (nc "\""), lit "\"", rstar (nc ">"), lit ">",
    rrepL 0 500 anyA, lit "<strong", rstar (nc ">"), lit "class=\"",
    rstar (nc "\""), lit "headword", rstar (nc "\""), lit "\"",
    rstar (nc ">"), lit "lang=\"la\"", rstar (nc ">"), lit ">",
    RE.grp 1 (rplus (nc "<")), lit "</strong>", RE.grp 2 (rrepL 0 1000 anyA),
    lit "</span>"]

def reLatinInf : RE :=
  rcat [ropt (rcat [lit "present", rplus spaceCl]), lit "infinitive",
    rstarL anyA, lit "<", rplus (nc ">"), lit ">", RE.grp 1 (rplus (nc "<")),
    lit "</", rplus (nc ">"), lit ">"]

def reLatinPerf : RE :=
  rcat [lit "perfect", ropt (rcat [rplus spaceCl, lit "active"]),
    rstarL anyA, lit "<", rplus (nc ">"), lit ">", RE.grp 1 (rplus (nc "<")),
    lit "</", rplus (nc ">"), lit ">"]

def reLatinSup : RE :=
  rcat [lit "supine", rstarL anyA, lit "<", rplus (nc ">"), lit ">",
    RE.grp 1 (rplus (nc "<")), lit "</", rplus (nc ">"), lit ">"]

/-- Embeds extractLatinVerbForms (the word argument is unused by the
source as well). -/
def extractLatinVerbForms (html : Str) (_word : Str) : Option LatinVerbForms :=
  match reFind true reLatinHeadword html with
  | none => none
  | some m =>
    let firstPersonPresent := jsTrim (stripHTMLTags (mGroupD html m 1))
    let headwordContent := mGroupD html m 2
    let infForm := (reFind true reLatinInf headwordContent).map (fun im =>
      decodeHTMLEntities (jsTrim (stripHTMLTags (mGroupD headwordContent im 1))))
    let perfForm := (reFind true reLatinPerf headwordContent).map (fun im =>
      decodeHTMLEntities (jsTrim (stripHTMLTags (mGroupD headwordContent im 1))))
    let supForm := (reFind true reLatinSup headwordContent).map (fun im =>
      decodeHTMLEntities (jsTrim (stripHTMLTags (mGroupD headwordContent im 1))))
    if infForm.isSome ∨ perfForm.isSome ∨ supForm.isSome then
      some { firstPersonPresent := decodeHTMLEntities firstPersonPresent,
             infinitive := infForm, firstPersonPerfect := perfForm,
             supine := supForm }
    else none

-- ---------------------------------------------------------------------------
-- filterBestMatch and the diacritic-insensitive normalization.
-- ---------------------------------------------------------------------------

/-- Canonical decomposition of one character; models the NFD normalization
of the JavaScript platform for the precomposed Latin letters in scope
(identity elsewhere). -/
def nfdChar (c : Char) : List Char :=
  let acc := fun (b : Char) (m : Nat) => [b, Char.ofNat m]
  if c = Char.ofNat 0xE1 then acc (Char.ofNat 97) 0x301
  else if c = Char.ofNat 0xE9 then acc (Char.ofNat 101) 0x301
  else if c = Char.ofNat 0xED then acc (Char.ofNat 105) 0x301
  else if c = Char.ofNat 0xF3 then acc (Char.ofNat 111) 0x301
  else if c = Char.ofNat 0xFA then acc (Char.ofNat 117) 0x301
  else if c = Char.ofNat 0xE0 then acc (Char.ofNat 97) 0x300
  else if c = Char.ofNat 0xE8 then acc (Char.ofNat 101) 0x300
  else if c = Char.ofNat 0xEC then acc (Char.ofNat 105) 0x300
  else if c = Char.ofNat 0xF2 then acc (Char.ofNat 111) 0x300
  else if c = Char.ofNat 0xF9 then acc (Char.ofNat 117) 0x300
  else if c = Char.ofNat 0xE2 then acc (Char.ofNat 97) 0x302
  else if c = Char.ofNat 0xEA then acc (Char.ofNat 101) 0x302
  else if c = Char.ofNat 0xEE then acc (Char.ofNat 105) 0x302
  else if c = Char.ofNat 0xF4 then acc (Char.ofNat 111) 0x302
  else if c = Char.ofNat 0xFB then acc (Char.ofNat 117) 0x302
  else if c = Char.ofNat 0xE4 then acc (Char.ofNat 97) 0x308
  else if c = Char.ofNat 0xEB then acc (Char.ofNat 101) 0x308
  else if c = Char.ofNat 0xEF then acc (Char.ofNat 105) 0x308
  else if c = Char.ofNat 0xF6 then acc (Char.ofNat 111) 0x308
  else if c = Char.ofNat 0xFC then acc (Char.ofNat 117) 0x308
  else if c = Char.ofNat 0xF1 then acc (Char.ofNat 110) 0x303
  else if c = Char.ofNat 0xE3 then acc (Char.ofNat 97) 0x303
  else if c = Char.ofNat 0xF5 then acc (Char.ofNat 111) 0x303
  else if c = Char.ofNat 0xE7 then acc (Char.ofNat 99) 0x327
  else if c = Char.ofNat 0xE5 then acc (Char.ofNat 97) 0x30A
  else [c]

def nfdStr (s : Str) : Str := s.flatMap nfdChar

/-- The combining-mark range class of the normalize helper. -/
def reCombining : RE :=
  RE.cls false [CI.range (Char.ofNat 0x300) (Char.ofNat 0x36F)]

/-- The normalize helper of filterBestMatch: decompose, strip combining
marks, lower-case. -/
def normalizeBM (s : Str) : Str :=
  toLowerStr (reReplaceAll false reCombining (nfdStr s) [])

/-- The hasAccents helper of filterBestMatch. -/
def hasAccents (s : Str) : Bool :=
  decide (s ≠ reReplaceAll false reCombining (nfdStr s) [])

/-- Embeds filterBestMatch: single-word filtering, diacritic-insensitive
matching and the accent-preference tie-break. -/
def filterBestMatch (suggestions : List Str) (originalWord : Str) : Option Str :=
  if suggestions.length = 0 then none
  else
    let normalizedOriginal := normalizeBM originalWord
    let originalHasAccents := hasAccents originalWord
    let singleWords := suggestions.filter (fun s => ¬ strContainsChar s (Char.ofNat 32))
    let acMatches := singleWords.filter (fun s => normalizeBM s = normalizedOriginal)
    if acMatches.length = 0 then
      match singleWords.head? with
      | some w => if w = [] then none else some w
      | none => none
    else if acMatches.length = 1 then acMatches.head?
    else if ¬ originalHasAccents then
      match acMatches.find? hasAccents with
      | some m => some m
      | none => acMatches.head?
    else acMatches.head?

-- ---------------------------------------------------------------------------
-- Orchestrator: errors, events, environment and effect monad.
-- ---------------------------------------------------------------------------

/-- The error kinds of the client (all are WikiglotError values in the
source; notFound and timeout are its subclasses). -/
inductive Err where
  | config (msg : Str)
  | notFound (w : Str)
  | http (code : Nat)
  | api (info : Str)
  | timeout
deriving DecidableEq

/-- Observable events of one lookup: the two network request kinds, and the
recursive invocations of the orchestrator with their suppression flag. -/
inductive Ev where
  | fetchPage (w : Str)
  | searchq (w : Str)
  | recCall (w : Str) (skip : Bool)
deriving DecidableEq

/-- Outcome of one page request against the upstream collaborator. -/
inductive PageOutcome where
  | ok (title html : Str)
  | notFound404
  | missingTitle (info : Str)
  | httpErr (code : Nat)
  | apiErr (info : Str)
  | timeout

/-- The upstream collaborator: page requests and free-text search (a search
transport failure is modelled as an empty result list, exactly what the
source returns on that path). -/
structure Env where
  page : Str → PageOutcome
  search : Str → List Str

/-- Writer-plus-exceptions result of one step: outcome and the events it
produced, in order. -/
structure Res (α : Type) where
  out : Except Err α
  trace : List Ev

def Res.bindR {α β : Type} (x : Res α) (f : α → Res β) : Res β :=
  match x.out with
  | .error e => ⟨.error e, x.trace⟩
  | .ok a => let y := f a; ⟨y.out, x.trace ++ y.trace⟩

def Res.pureR {α : Type} (a : α) : Res α := ⟨.ok a, []⟩

def throwE {α : Type} (e : Err) : Res α := ⟨.error e, []⟩

def emit (e : Ev) : Res Unit := ⟨.ok (), [e]⟩

/-- The try/catch of the source: the handler sees the error, events of the
failed attempt stay observed. -/
def tryCatchR {α : Type} (x : Res α) (h : Err → Res α) : Res α :=
  match x.out with
  | .ok a => ⟨.ok a, x.trace⟩
  | .error e => let y := h e; ⟨y.out, x.trace ++ y.trace⟩

def prependEv {α : Type} (e : Ev) (x : Res α) : Res α := ⟨x.out, e :: x.trace⟩

/-- Propositional equality on fallible outcomes is decidable. -/
instance exceptDecEq {ε α : Type} [DecidableEq ε] [DecidableEq α] :
    DecidableEq (Except ε α)
  | .ok a, .ok b =>
    if h : a = b then isTrue (by rw [h])
    else isFalse (fun he => h (by injection he))
  | .ok a, .error e => isFalse (fun he => Except.noConfusion he)
  | .error e, .ok a => isFalse (fun he => Except.noConfusion he)
  | .error e, .error f =>
    if h : e = f then isTrue (by rw [h])
    else isFalse (fun he => h (by injection he))

structure TranslationResult where
  word : Str
  sourceLanguage : Str
  targetLanguage : Str
  translationsByType : List WordTypeTranslations
  pronunciation : Option Str := none
  headwordTransliteration : Option Str := none
  searchedFor : Option Str := none
  foundAs : Option Str := none
deriving DecidableEq

structure FetchOut where
  title : Str
  html : Str
  correctedFrom : Option Str
deriving DecidableEq

/-- Embeds searchSuggestions: one search request, never an error. -/
def searchSuggestions (env : Env) (word : Str) : Res (List Str) :=
  ⟨.ok (env.search word), [.searchq word]⟩

/-- Embeds fetch with attemptCorrection = false. -/
def fetchOnce (env : Env) (word : Str) : Res FetchOut :=
  Res.bindR (emit (.fetchPage word)) fun _ =>
  match env.page word with
  | .ok title html => Res.pureR ⟨title, html, none⟩
  | .notFound404 => throwE (.notFound word)
  | .missingTitle info => throwE (.api info)
  | .httpErr code => throwE (.http code)
  | .apiErr info => throwE (.api info)
  | .timeout => throwE .timeout

/-- Embeds fetch with attemptCorrection = true: a missing page (404 or
missingtitle) triggers one search-assisted corrected retry that itself never
corrects again. -/
def fetchWithCorrection (env : Env) (word : Str) : Res FetchOut :=
  Res.bindR (emit (.fetchPage word)) fun _ =>
  match env.page word with
  | .ok title html => Res.pureR ⟨title, html, none⟩
  | .notFound404 =>
    Res.bindR (searchSuggestions env word) fun suggestions =>
    (match filterBestMatch suggestions word with
     | some correctedWord =>
       if correctedWord ≠ word then
         Res.bindR (fetchOnce env correctedWord) fun r =>
           Res.pureR { r with correctedFrom := some word }
       else throwE (.notFound word)
     | none => throwE (.notFound word))
  | .missingTitle info =>
    Res.bindR (searchSuggestions env word) fun suggestions =>
    (match filterBestMatch suggestions word with
     | some correctedWord =>
       if correctedWord ≠ word then
         Res.bindR (fetchOnce env correctedWord) fun r =>
           Res.pureR { r with correctedFrom := some word }
       else throwE (.api info)
     | none => throwE (.api info))
  | .httpErr code => throwE (.http code)
  | .apiErr info => throwE (.api info)
  | .timeout => throwE .timeout

-- ---------------------------------------------------------------------------
-- translateEng.
-- ---------------------------------------------------------------------------

def langListMsg : Str :=
  joinComma (supportedLanguages.map (fun code =>
    ((lookupLang code).getD []) ++ strOf " (" ++ code ++ strOf ")"))

/-- The three fail-fast validation checks at the head of translateEng, in
source order. -/
def validateLangs (sourceLanguage targetLanguage : Str) : Option Err :=
  if ¬ supportedLanguages.contains sourceLanguage ∨
      ¬ supportedLanguages.contains targetLanguage then
    some (.config (strOf "Only " ++ langListMsg ++ strOf " are supported"))
  else if sourceLanguage = targetLanguage then
    some (.config (strOf "Source and target languages must be different"))
  else if sourceLanguage ≠ strOf "en" ∧ targetLanguage ≠ strOf "en" then
    some (.config (strOf "One of the languages must be English when using English Wiktionary"))
  else none

/-- English-section slice of the page (whole page when the heading is
absent). -/
def englishHtmlOf (html : Str) : Str :=
  match reFind true reEnglishH2 html with
  | none => html
  | some em => sliceSection html em reNextH2 false

/-- The word types probed for translation-subpage redirects. -/
def redirectWordTypes : List Str :=
  [strOf "Noun", strOf "Verb", strOf "Adjective", strOf "Adverb",
   strOf "Pronoun", strOf "Preposition", strOf "Conjunction",
   strOf "Interjection", strOf "Numeral"]

/-- Redirect-subpage resolution loop of the pivot-source branch; a failed
auxiliary fetch degrades to no extra groups. -/
def redirectLoop (env : Env) (englishHtml tgt : Str) :
    List Str → Res (List WordTypeTranslations)
  | [] => Res.pureR []
  | name :: rest =>
    match detectTranslationRedirect englishHtml name with
    | none => redirectLoop env englishHtml tgt rest
    | some page =>
      Res.bindR
        (tryCatchR
          (Res.bindR (fetchWithCorrection env page) fun fr =>
            let redirectTranslations :=
              parseTranslationRedirectPage fr.html tgt (toLowerStr name)
            Res.pureR (if redirectTranslations.length > 0 then
              [{ wordType := toLowerStr name,
                 translations := redirectTranslations }]
            else ([] : List WordTypeTranslations)))
          (fun _ => Res.pureR []))
        fun gs =>
          Res.bindR (redirectLoop env englishHtml tgt rest) fun gss =>
            Res.pureR (gs ++ gss)

/-- Base-form resolution loop of the foreign-source branch: one suppressed
recursive lookup per not-yet-fetched base verb, failures swallowed. -/
def baseVerbLoop (recurF : Str → Res TranslationResult) :
    List WordTypeTranslations → List Str → Res (List WordTypeTranslations)
  | [], _ => Res.pureR []
  | entry :: rest, fetched =>
    match entry.verbForm with
    | none => baseVerbLoop recurF rest fetched
    | some vf =>
      if fetched.contains vf.baseVerb then baseVerbLoop recurF rest fetched
      else
        Res.bindR
          (tryCatchR
            (Res.bindR (recurF vf.baseVerb) fun baseVerbResult =>
              Res.pureR (baseVerbResult.translationsByType.map (fun g =>
                { g with verbForm := some vf })))
            (fun _ => Res.pureR []))
          fun gs =>
            Res.bindR (baseVerbLoop recurF rest (vf.baseVerb :: fetched)) fun gss =>
              Res.pureR (gs ++ gss)

def charBasedLanguages : List Str :=
  [strOf "ar", strOf "ko", strOf "zh", strOf "ja"]

/-- Pivot-source branch of translateEng: translation tables of the English
section, subpage redirects, and the optional suppressed base-form lookup. -/
def englishBranch (env : Env) (recur : Option (Str → Res TranslationResult))
    (html englishHtml targetLanguage : Str) : Res (List WordTypeTranslations) :=
  let englishVerbForm :=
    if recur.isSome then detectEnglishVerbForm html else none
  let tbt0 :=
    parseWiktionaryTranslationsByType englishHtml targetLanguage (strOf "en")
  Res.bindR (redirectLoop env englishHtml targetLanguage redirectWordTypes)
    fun redirectGroups =>
  Res.bindR
    (match recur, englishVerbForm with
     | some f, some vf =>
       tryCatchR
         (Res.bindR (f vf.baseVerb) fun baseVerbResult =>
           Res.pureR (baseVerbResult.translationsByType.map (fun g =>
             { g with verbForm := some vf })))
         (fun _ => Res.pureR [])
     | _, _ => Res.pureR [])
    fun verbGroups => Res.pureR (tbt0 ++ redirectGroups ++ verbGroups)

/-- Foreign-source branch of translateEng: definition extraction plus the
optional base-form loop. -/
def foreignBranch (recur : Option (Str → Res TranslationResult))
    (html sourceLanguage : Str) : Res (List WordTypeTranslations) :=
  let languageName := (lookupLang sourceLanguage).getD []
  let tbt0 := parseEnglishWiktionaryForeignWord html languageName
  Res.bindR
    (match recur with
     | none => Res.pureR []
     | some f =>
       baseVerbLoop f (tbt0.filter (fun t => t.verbForm.isSome)) [])
    fun extra => Res.pureR (tbt0 ++ extra)

/-- Accent-correction retry stage of translateEng: on an outer call with an
empty group list and no earlier correction, search once and retry once with
the best single-word candidate; a successful retry yields the early result
carrying correction metadata. -/
def correctionStage (env : Env) (recur : Option (Str → Res TranslationResult))
    (normalizedWord : Str) (translationsByType : List WordTypeTranslations)
    (correctedFrom : Option Str) : Res (Option TranslationResult) :=
  match recur with
  | some f =>
    if translationsByType.length = 0 ∧ correctedFrom = none then
      Res.bindR (searchSuggestions env normalizedWord) fun suggestions =>
      (match filterBestMatch suggestions normalizedWord with
       | some correctedWord =>
         if correctedWord ≠ normalizedWord then
           tryCatchR
             (Res.bindR (f correctedWord) fun retryResult =>
               if retryResult.translationsByType.length > 0 then
                 Res.pureR (some { retryResult with
                   searchedFor := some normalizedWord,
                   foundAs := some correctedWord })
               else Res.pureR none)
             (fun _ => Res.pureR none)
         else Res.pureR none
       | none => Res.pureR none)
    else Res.pureR none
  | none => Res.pureR none

/-- Embeds translateEng.  The recur argument carries the recursive
entry point exactly when skipVerbFormLookup is false; every recursive call
site of the source passes the suppression flag, so recur invocations wrap
the suppressed variant. -/
def translateCore (env : Env) (recur : Option (Str → Res TranslationResult))
    (word sourceLanguage targetLanguage : Str) : Res TranslationResult :=
  match validateLangs sourceLanguage targetLanguage with
  | some e => ⟨.error e, []⟩
  | none =>
    let normalizedWord := reReplaceAll false reSpaces word (strOf "_")
    Res.bindR (fetchWithCorrection env normalizedWord) fun fetchResult =>
    let html := fetchResult.html
    let actualTitle :=
      if fetchResult.title = [] then normalizedWord else fetchResult.title
    let correctedFrom := fetchResult.correctedFrom
    let englishHtml := englishHtmlOf html
    Res.bindR
      (if sourceLanguage = strOf "en" then
        englishBranch env recur html englishHtml targetLanguage
      else foreignBranch recur html sourceLanguage)
      fun translationsByType =>
    let pronunciation :=
      extractPronunciation
        (if sourceLanguage = strOf "en" then englishHtml else html)
    let headwordTransliteration :=
      if charBasedLanguages.contains sourceLanguage then
        extractHeadwordTransliteration html ((lookupLang sourceLanguage).getD [])
      else none
    Res.bindR
      (correctionStage env recur normalizedWord translationsByType correctedFrom)
      fun earlyOpt =>
    match earlyOpt with
    | some r => Res.pureR r
    | none =>
      let result : TranslationResult :=
        { word := word, sourceLanguage := sourceLanguage,
          targetLanguage := targetLanguage,
          translationsByType := translationsByType,
          pronunciation := pronunciation,
          headwordTransliteration := headwordTransliteration }
      match correctedFrom with
      | some cf =>
        Res.pureR { result with searchedFor := some cf, foundAs := some actualTitle }
      | none => Res.pureR result

/-- translateEng with skipVerbFormLookup = true: no morphology lookup, no
correction retry, no recursion. -/
def translateEngInner (env : Env) (word s t : Str) : Res TranslationResult :=
  translateCore env none word s t

/-- The recursive entry point an outer call passes down: a suppressed
lookup, recorded as a recCall event with its (always set) suppression
flag. -/
def recurOf (env : Env) (s t : Str) : Str → Res TranslationResult :=
  fun w => prependEv (.recCall w true) (translateCore env none w s t)

/-- translateEng with skipVerbFormLookup = false (the call the public
translate method makes). -/
def translateEngOuter (env : Env) (word s t : Str) : Res TranslationResult :=
  translateCore env (some (recurOf env s t)) word s t

/-- The public translate entry point. -/
def translate (env : Env) (word s t : Str) : Res TranslationResult :=
  translateEngOuter env word s t

-- ---------------------------------------------------------------------------
-- Concrete pages and environments used by witnesses and counterexamples.
-- ---------------------------------------------------------------------------

/-- A Spanish page whose verb and participle regions name two different base
lexemes. -/
def pageTwoBaseVerbs : Str :=
  strOf "<h2 id=\"Spanish\">Spanish</h2><h3 id=\"Verb\">Verb</h3><ol><li><a href=\"/wiki/run\">run</a>, present of alpha</li></ol><h3 id=\"Participle\">Participle</h3><ol><li><a href=\"/wiki/ran\">ran</a>, past participle of beta</li></ol>"

def envTwoBaseVerbs : Env :=
  { page := fun w =>
      if w = strOf "gusta" then .ok (strOf "gusta") pageTwoBaseVerbs
      else .notFound404,
    search := fun _ => [] }

def pageEnglishOnly : Str := strOf "<h2 id=\"English\">English</h2>"

def pageSpanishCoffee : Str :=
  strOf "<h2 id=\"Spanish\">Spanish</h2><h3 id=\"Noun\">Noun</h3><ol><li><a href=\"/wiki/coffee\">coffee</a></li></ol>"

/-- Environment of the accent-correction retry scenario: the bare spelling
exists but holds no Spanish material, the accented spelling does. -/
def envCafeRetry : Env :=
  { page := fun w =>
      if w = strOf "cafe" then .ok (strOf "cafe") pageEnglishOnly
      else if w = strOf "café" then .ok (strOf "café") pageSpanishCoffee
      else .notFound404,
    search := fun w => if w = strOf "cafe" then [strOf "café"] else [] }

/-- The page of the word foo whose first definition reads: present of
foo. -/
def pageSelfRef : Str :=
  strOf "<h2 id=\"Spanish\">Spanish</h2><h3 id=\"Verb\">Verb</h3><ol><li><a href=\"/wiki/x\">x</a>, present of foo</li></ol>"

def envSelfRef : Env :=
  { page := fun w =>
      if w = strOf "foo" then .ok (strOf "foo") pageSelfRef else .notFound404,
    search := fun _ => [] }

/-- A Korean section whose only Latin-script material is a language-tagged
element carrying a grammatical term. -/
def koLatnPage : Str :=
  strOf "<h2 id=\"Korean\">Korean</h2><p><span lang=\"ko-Latn\">haeyoche</span></p>"

/-- A Latin verb headword line exposing all three labelled sub-forms. -/
def latinFullPage : Str :=
  strOf "<span class=\"headword-line\"><strong class=\"Latn headword\" lang=\"la\">amō</strong> (<i>present infinitive</i> <b>amāre</b>, <i>perfect active</i> <b>amāvī</b>, <i>supine</i> <b>amātum</b>)</span>"

/-- A bare Latin verb headword line with no annotation. -/
def latinBarePage : Str :=
  strOf "<span class=\"headword-line\"><strong class=\"Latn headword\" lang=\"la\">sum</strong></span>"

/-- A definition item whose only link is a meta link, with plain text of
exactly 200 characters. -/
def liPlain200 : Str :=
  strOf "<a href=\"/wiki/x\">Appendix:aa</a>" ++ List.replicate 189 (Char.ofNat 98)

/-- A definition item opening with narrative text and no link. -/
def liNarrative : Str := strOf "Used as a greeting"

/-- A definition item whose only link is a meta link, with a short plain
text containing a comma. -/
def liPlainShort : Str :=
  strOf "<a href=\"/wiki/x\">Appendix:bb</a> hi, there"

def isRecCall (e : Ev) : Bool :=
  match e with
  | .recCall _ _ => true
  | .fetchPage _ => false
  | .searchq _ => false

def countRecCalls (l : List Ev) : Nat := l.countP isRecCall

/-- The base lexemes the base-form loop fetches, in order: one per distinct
not-yet-fetched detected base verb. -/
def newBaseVerbs : List WordTypeTranslations → List Str → List Str
  | [], _ => []
  | e :: rest, fetched =>
    match e.verbForm with
    | none => newBaseVerbs rest fetched
    | some vf =>
      if fetched.contains vf.baseVerb then newBaseVerbs rest fetched
      else vf.baseVerb :: newBaseVerbs rest (vf.baseVerb :: fetched)

def resWord (x : Res TranslationResult) : Str :=
  match x.out with
  | .ok r => r.word
  | .error _ => []

def resSearchedFor (x : Res TranslationResult) : Option Str :=
  match x.out with
  | .ok r => r.searchedFor
  | .error _ => none

def resFoundAs (x : Res TranslationResult) : Option Str :=
  match x.out with
  | .ok r => r.foundAs
  | .error _ => none

def resGroups (x : Res TranslationResult) : List WordTypeTranslations :=
  match x.out with
  | .ok r => r.translationsByType
  | .error _ => []

/-- The single extracted entry of the Spanish coffee page. -/
def coffeeEntry : TranslationWithMeaning :=
  { translation := strOf "coffee", meaning := strOf "coffee" }

/-- The single word-type group of the Spanish coffee page. -/
def coffeeGroup : WordTypeTranslations :=
  { wordType := strOf "noun", translations := [coffeeEntry] }

/-- The resolution result of the accent-correction retry scenario. -/
def cafeResult : TranslationResult :=
  { word := strOf "café", sourceLanguage := strOf "es",
    targetLanguage := strOf "en", translationsByType := [coffeeGroup],
    pronunciation := none, headwordTransliteration := none,
    searchedFor := some (strOf "cafe"), foundAs := some (strOf "café") }

/-- Specification-side best-match selection, written from the claim text
(amended only at the empty-title edge the counterexample exhibits): the
unique diacritic-insensitive single-word match when exactly one exists;
among several, the first diacritic-bearing one when the original is bare,
else the first in search-rank order; with no match, the first single-word
title unless it is the empty string; null when no single-word title
exists. -/
def bestMatchSpec (suggestions : List Str) (originalWord : Str) : Option Str :=
  let singleWords :=
    suggestions.filter (fun s => ¬ strContainsChar s (Char.ofNat 32))
  let ms := singleWords.filter (fun s => normalizeBM s = normalizeBM originalWord)
  if ms.length = 1 then ms.head?
  else if ms.length = 0 then
    match singleWords.head? with
    | some w => if w = [] then none else some w
    | none => none
  else if ¬ hasAccents originalWord then
    match ms.find? hasAccents with
    | some m => some m
    | none => ms.head?
  else ms.head?

-- ---------------------------------------------------------------------------
-- Helper lemmas on the effect monad.
-- ---------------------------------------------------------------------------

theorem bindR_trace_pred {α β : Type} {P : Ev → Prop} {x : Res α}
    {f : α → Res β} (hx : ∀ e ∈ x.trace, P e)
    (hf : ∀ a, ∀ e ∈ (f a).trace, P e) :
    ∀ e ∈ (Res.bindR x f).trace, P e := by
  intro e he
  rcases x with ⟨out, tr⟩
  cases out with
  | error err => exact hx e he
  | ok a =>
    simp only [Res.bindR, List.mem_append] at he
    rcases he with h | h
    · exact hx e h
    · exact hf a e h

theorem tryCatchR_trace_pred {α : Type} {P : Ev → Prop} {x : Res α}
    {h : Err → Res α} (hx : ∀ e ∈ x.trace, P e)
    (hh : ∀ er, ∀ e ∈ (h er).trace, P e) :
    ∀ e ∈ (tryCatchR x h).trace, P e := by
  intro e he
  rcases x with ⟨out, tr⟩
  cases out with
  | ok a => exact hx e he
  | error er =>
    simp only [tryCatchR, List.mem_append] at he
    rcases he with h' | h'
    · exact hx e h'
    · exact hh er e h'

theorem pureR_trace_pred {α : Type} {P : Ev → Prop} {a : α} :
    ∀ e ∈ (Res.pureR a).trace, P e := by
  intro e he
  simp [Res.pureR] at he

theorem throwE_trace_pred {α : Type} {P : Ev → Prop} {er : Err} :
    ∀ e ∈ (throwE er : Res α).trace, P e := by
  intro e he
  simp [throwE] at he

theorem bindR_out_ok {α β : Type} {x : Res α} {f : α → Res β} {b : β}
    (h : (Res.bindR x f).out = .ok b) :
    ∃ a, x.out = .ok a ∧ (f a).out = .ok b := by
  rcases x with ⟨out, tr⟩
  cases out with
  | error err => simp [Res.bindR] at h
  | ok a => exact ⟨a, rfl, h⟩

theorem tryCatchR_out_ok {α : Type} {x : Res α} {h : Err → Res α} {a : α}
    (hk : (tryCatchR x h).out = .ok a) :
    x.out = .ok a ∨ ∃ er, (h er).out = .ok a := by
  rcases x with ⟨out, tr⟩
  cases out with
  | ok b => exact Or.inl hk
  | error er => exact Or.inr ⟨er, hk⟩

theorem pureR_out_ok {α : Type} {a b : α}
    (h : (Res.pureR a).out = .ok b) : a = b := by
  simpa [Res.pureR] using h

-- ---------------------------------------------------------------------------
-- Claim C4.
-- ---------------------------------------------------------------------------

/-- Claim C4 (counterexample): a search returning exactly one title, the
empty string, has a single-word (space-free) title that matches nothing,
yet the selection returns null instead of that first single-word result -
the JavaScript truthiness guard discards an empty first candidate. -/
theorem filterBestMatch_empty_title_returns_none :
    filterBestMatch [([] : Str)] (strOf "x") = none ∧
    ([] : Str) ∈ ([([] : Str)]).filter
      (fun s => ¬ strContainsChar s (Char.ofNat 32)) ∧
    ([([] : Str)]).filter (fun s => normalizeBM s = normalizeBM (strOf "x")) = [] := by
  refine ⟨by decide, by decide, by decide⟩

/-- Claim C4 (amended): the best-match selection equals the specification
selection - unique diacritic-insensitive single-word match, diacritic
preference among several when the original is bare, else first in rank
order, else the first single-word title unless it is the empty string,
else null. -/
theorem filterBestMatch_eq_bestMatchSpec (suggestions : List Str)
    (originalWord : Str) :
    filterBestMatch suggestions originalWord =
      bestMatchSpec suggestions originalWord := by
  unfold filterBestMatch bestMatchSpec
  by_cases hs : suggestions.length = 0
  · have hnil : suggestions = [] := List.length_eq_zero.mp hs
    subst hnil
    simp
  · simp only [if_neg hs]
    split_ifs <;> first | rfl | omega

-- ---------------------------------------------------------------------------
-- Helper lemmas on lists and the extractor helpers.
-- ---------------------------------------------------------------------------

theorem findSome?_none_of_all_none {α β : Type} (f : α → Option β) :
    ∀ l : List α, (∀ x ∈ l, f x = none) → l.findSome? f = none := by
  intro l h
  induction l with
  | nil => rfl
  | cons x xs ih =>
    have hx := h x (List.mem_cons_self x xs)
    simp only [List.findSome?, hx]
    exact ih (fun y hy => h y (List.mem_cons_of_mem x hy))

theorem linkWordsOf_mem_ne_nil {d w : Str} (h : w ∈ linkWordsOf d) : w ≠ [] := by
  unfold linkWordsOf at h
  rw [List.mem_filterMap] at h
  obtain ⟨m, _, hm⟩ := h
  dsimp only at hm
  split at hm
  · rename_i hcond
    cases hm
    have hlen := hcond.2.2
    intro hnil
    rw [hnil] at hlen
    exact absurd hlen (by decide)
  · exact absurd hm (by simp)

theorem joinComma_ne_nil {ws : List Str} (hne : ws ≠ [])
    (hall : ∀ w ∈ ws, w ≠ []) : joinComma ws ≠ [] := by
  cases ws with
  | nil => exact absurd rfl hne
  | cons w rest =>
    have hw : w ≠ [] := hall w (List.mem_cons_self w rest)
    cases rest with
    | nil => simpa [joinComma, List.intercalate, List.intersperse] using hw
    | cons y ys =>
      simp only [joinComma, List.intercalate, List.intersperse, List.flatten_cons]
      intro hcontra
      exact hw (List.append_eq_nil.mp hcontra).1

-- ---------------------------------------------------------------------------
-- Claim C5.
-- ---------------------------------------------------------------------------

/-- Claim C5: the definition extractor emits nothing for a stripped list
item that fails the leading cross-reference-link gate, and every emitted
entry carries a non-empty gloss. -/
theorem definition_extractor_gate_and_gloss (raw : Str) :
    (reTest false reAccept (stripContainers raw) = false →
      processLiItem raw = []) ∧
    (∀ e ∈ processLiItem raw, e.meaning ≠ []) := by
  constructor
  · intro h
    unfold processLiItem
    simp [h]
  · intro e he
    simp only [processLiItem] at he
    split at he
    · exact (List.not_mem_nil e he).elim
    · split at he
      · rename_i hne
        rw [List.mem_map] at he
        obtain ⟨w, hwmem, rfl⟩ := he
        exact joinComma_ne_nil hne (fun x hx => linkWordsOf_mem_ne_nil hx)
      · split at he
        · rename_i hcond
          rw [List.mem_singleton] at he
          subst he
          dsimp only
          exact hcond.1
        · exact (List.not_mem_nil e he).elim

/-- Witness for C5 at a narrative list item with no link. -/
theorem definition_extractor_gate_witness :
    reTest false reAccept (stripContainers liNarrative) = false ∧
    processLiItem liNarrative = [] :=
  ⟨by decide, (definition_extractor_gate_and_gloss liNarrative).1 (by decide)⟩

-- ---------------------------------------------------------------------------
-- Claim C6.
-- ---------------------------------------------------------------------------

set_option maxRecDepth 40000 in
set_option maxHeartbeats 4000000 in
/-- Claim C6 (counterexample): a list item passing the link gate whose
accepted links yield no valid words and whose plain text is exactly 200
characters is discarded, not kept - the source keeps the fallback only
strictly below 200. -/
theorem fallback_exact_200_discarded :
    reTest false reAccept (stripContainers liPlain200) = true ∧
    linkWordsOf (stripContainers liPlain200) = [] ∧
    (plainDefOf (stripContainers liPlain200)).length = 200 ∧
    processLiItem liPlain200 = [] := by
  refine ⟨by decide, by decide, by decide, by decide⟩

/-- Claim C6 (amended): for an accepted item with no valid linked words,
the fallback keeps exactly one entry - surface form the plain text
truncated at the first comma or semicolon and trimmed, gloss the plain
text - precisely when the plain text is non-empty and strictly shorter
than 200 characters; otherwise (including exactly 200) it is discarded. -/
theorem fallback_plain_text_rule (raw : Str)
    (hacc : reTest false reAccept (stripContainers raw) = true)
    (hnw : linkWordsOf (stripContainers raw) = []) :
    processLiItem raw =
      (if plainDefOf (stripContainers raw) ≠ [] ∧
          (plainDefOf (stripContainers raw)).length < 200 then
        [{ translation := jsTrim (splitFirstCS (plainDefOf (stripContainers raw))),
           transliteration := none, dialect := none,
           meaning := plainDefOf (stripContainers raw) }]
      else []) := by
  unfold processLiItem
  simp [hacc, hnw]

set_option maxRecDepth 40000 in
set_option maxHeartbeats 2000000 in
/-- Witness for C6 at a short no-valid-link item with a comma. -/
theorem fallback_plain_text_rule_witness :
    reTest false reAccept (stripContainers liPlainShort) = true ∧
    processLiItem liPlainShort =
      (if plainDefOf (stripContainers liPlainShort) ≠ [] ∧
          (plainDefOf (stripContainers liPlainShort)).length < 200 then
        [{ translation := jsTrim (splitFirstCS (plainDefOf (stripContainers liPlainShort))),
           transliteration := none, dialect := none,
           meaning := plainDefOf (stripContainers liPlainShort) }]
      else []) :=
  ⟨by decide, fallback_plain_text_rule liPlainShort (by decide) (by decide)⟩

-- ---------------------------------------------------------------------------
-- Claim C8.
-- ---------------------------------------------------------------------------

set_option maxRecDepth 40000 in
/-- Claim C8: on a Korean section whose only Latin-script material is a
language-tagged element holding the grammatical term haeyoche, the
transliteration extractor falls through the bullet and
romanization-span patterns and applies the language-tagged fallback,
returning the grammatical term - the documented Korean exclusion of that
third fallback is absent from this code. -/
theorem korean_latn_fallback_applied :
    extractHeadwordTransliteration koLatnPage (strOf "Korean") =
      some (strOf "haeyoche") := by decide

-- ---------------------------------------------------------------------------
-- Claim C9.
-- ---------------------------------------------------------------------------

set_option maxRecDepth 40000 in
/-- Claim C9: the Latin verb extractor returns a record only when at least
one labelled sub-form beyond the headword was found; a headword line with
all three annotations yields all four principal parts; a bare headword
yields none rather than a partial record. -/
theorem latin_verb_forms_require_subform :
    (∀ html w r, extractLatinVerbForms html w = some r →
      r.infinitive.isSome = true ∨ r.firstPersonPerfect.isSome = true ∨
        r.supine.isSome = true) ∧
    extractLatinVerbForms latinFullPage (strOf "amo") =
      some { firstPersonPresent := strOf "amō",
             infinitive := some (strOf "amāre"),
             firstPersonPerfect := some (strOf "amāvī"),
             supine := some (strOf "amātum") } ∧
    extractLatinVerbForms latinBarePage (strOf "sum") = none := by
  refine ⟨?_, by decide, by decide⟩
  intro html w r h
  simp only [extractLatinVerbForms] at h
  cases hf : reFind true reLatinHeadword html with
  | none => rw [hf] at h; exact absurd h (by simp)
  | some m =>
    rw [hf] at h
    dsimp only at h
    split at h
    · rename_i hcond
      injection h with h2
      subst h2
      simpa using hcond
    · exact absurd h (by simp)

set_option maxRecDepth 40000 in
/-- Witness for C9 at the fully annotated headword line. -/
theorem latin_verb_forms_witness :
    (LatinVerbForms.mk (strOf "amō") (some (strOf "amāre"))
        (some (strOf "amāvī")) (some (strOf "amātum"))).infinitive.isSome = true ∨
    (LatinVerbForms.mk (strOf "amō") (some (strOf "amāre"))
        (some (strOf "amāvī")) (some (strOf "amātum"))).firstPersonPerfect.isSome = true ∨
    (LatinVerbForms.mk (strOf "amō") (some (strOf "amāre"))
        (some (strOf "amāvī")) (some (strOf "amātum"))).supine.isSome = true :=
  latin_verb_forms_require_subform.1 latinFullPage (strOf "amo") _ (by decide)

-- ---------------------------------------------------------------------------
-- Claim C3.
-- ---------------------------------------------------------------------------

set_option maxRecDepth 100000 in
/-- Claim C3 (counterexample): on the page of the word foo whose first
definition reads - present of foo - the form detector returns baseLexeme
foo, equal to the page own lexeme, and the orchestrator follows the
self-reference with a suppressed recursive lookup of foo itself. -/
theorem detect_verb_form_self_lexeme :
    detectVerbForm pageSelfRef =
      some { baseVerb := strOf "foo", formType := strOf "present" } ∧
    Ev.recCall (strOf "foo") true ∈
      (translateEngOuter envSelfRef (strOf "foo") (strOf "es") (strOf "en")).trace := by
  refine ⟨by decide, by decide⟩

/-- Claim C3 (amended): when the first definition item of a region matches
none of the templates, or the region has no definition item, the detector
returns none; no guard makes the detected base lexeme distinct from the
queried word. -/
theorem detect_verb_form_unmatched_none (sectionHtml : Str)
    (h : ∀ d, firstLiOf sectionHtml = some d →
      ∀ p ∈ verbFormPatterns, reFind true p d = none) :
    detectVerbForm sectionHtml = none := by
  unfold detectVerbForm
  cases hf : firstLiOf sectionHtml with
  | none => rfl
  | some d =>
    apply findSome?_none_of_all_none
    intro p hp
    rw [h d hf p hp]
    rfl

set_option maxRecDepth 40000 in
/-- Witness for C3 at a region whose first definition is plain narrative
text. -/
theorem detect_verb_form_unmatched_none_witness :
    detectVerbForm (strOf "<ol><li>hello</li></ol>") = none :=
  detect_verb_form_unmatched_none _ (by
    intro d hd p hp
    have hn : firstLiOf (strOf "<ol><li>hello</li></ol>") =
        some (strOf "hello") := by decide
    rw [hn] at hd
    cases hd
    fin_cases hp <;> rfl)

-- ---------------------------------------------------------------------------
-- Claim C1.
-- ---------------------------------------------------------------------------

/-- Claim C1: for any unsupported, identical, or pivot-free language pair
the lookup fails with a configuration error and an empty event trace - no
page fetch and no search is observed. -/
theorem resolve_invalid_pair_config_error_no_network (env : Env)
    (word s t : Str)
    (h : s ∉ supportedLanguages ∨ t ∉ supportedLanguages ∨ s = t ∨
         (s ≠ strOf "en" ∧ t ≠ strOf "en")) :
    (∃ m, (translate env word s t).out = Except.error (Err.config m)) ∧
    (translate env word s t).trace = [] := by
  have hv : ∃ m, validateLangs s t = some (Err.config m) := by
    unfold validateLangs
    by_cases h1 : ¬ supportedLanguages.contains s = true ∨
        ¬ supportedLanguages.contains t = true
    · rw [if_pos h1]; exact ⟨_, rfl⟩
    · rw [if_neg h1]
      push_neg at h1
      by_cases h2 : s = t
      · rw [if_pos h2]; exact ⟨_, rfl⟩
      · rw [if_neg h2]
        have h3 : s ≠ strOf "en" ∧ t ≠ strOf "en" := by
          rcases h with h | h | h | h
          · exact absurd (List.elem_iff.mp h1.1) h
          · exact absurd (List.elem_iff.mp h1.2) h
          · exact absurd h h2
          · exact h
        rw [if_pos h3]; exact ⟨_, rfl⟩
  obtain ⟨m, hm⟩ := hv
  constructor
  · exact ⟨m, by simp [translate, translateEngOuter, translateCore, hm]⟩
  · simp [translate, translateEngOuter, translateCore, hm]

/-- Witness for C1 at a pair with no pivot side. -/
theorem resolve_invalid_pair_witness :
    (∃ m, (translate envSelfRef (strOf "hola") (strOf "es") (strOf "fr")).out =
      Except.error (Err.config m)) ∧
    (translate envSelfRef (strOf "hola") (strOf "es") (strOf "fr")).trace = [] :=
  resolve_invalid_pair_config_error_no_network envSelfRef (strOf "hola")
    (strOf "es") (strOf "fr")
    (Or.inr (Or.inr (Or.inr ⟨by decide, by decide⟩)))

-- ---------------------------------------------------------------------------
-- Trace-predicate lemmas through the orchestrator (for C2).
-- ---------------------------------------------------------------------------

theorem emit_trace_pred {P : Ev → Prop} {ev : Ev} (h : P ev) :
    ∀ e ∈ (emit ev).trace, P e := by
  intro e he
  simp only [emit, List.mem_singleton] at he
  subst he
  exact h

theorem searchSuggestions_trace_pred {P : Ev → Prop}
    (hs : ∀ w, P (.searchq w)) (env : Env) (w : Str) :
    ∀ e ∈ (searchSuggestions env w).trace, P e := by
  intro e he
  simp only [searchSuggestions, List.mem_singleton] at he
  subst he
  exact hs w

theorem fetchOnce_trace_pred {P : Ev → Prop}
    (hf : ∀ w, P (.fetchPage w)) (env : Env) (w : Str) :
    ∀ e ∈ (fetchOnce env w).trace, P e := by
  unfold fetchOnce
  apply bindR_trace_pred (emit_trace_pred (hf w))
  intro _
  cases env.page w
  case ok => exact pureR_trace_pred
  all_goals exact throwE_trace_pred

theorem fetchWithCorrection_trace_pred {P : Ev → Prop}
    (hf : ∀ w, P (.fetchPage w)) (hs : ∀ w, P (.searchq w))
    (env : Env) (w : Str) :
    ∀ e ∈ (fetchWithCorrection env w).trace, P e := by
  unfold fetchWithCorrection
  apply bindR_trace_pred (emit_trace_pred (hf w))
  intro _
  cases env.page w
  case ok => exact pureR_trace_pred
  case notFound404 =>
    apply bindR_trace_pred (searchSuggestions_trace_pred hs env w)
    intro sugg
    cases filterBestMatch sugg w
    case none => exact throwE_trace_pred
    case some c =>
      dsimp only
      split
      · exact bindR_trace_pred (fetchOnce_trace_pred hf env c)
          (fun _ => pureR_trace_pred)
      · exact throwE_trace_pred
  case missingTitle =>
    apply bindR_trace_pred (searchSuggestions_trace_pred hs env w)
    intro sugg
    cases filterBestMatch sugg w
    case none => exact throwE_trace_pred
    case some c =>
      dsimp only
      split
      · exact bindR_trace_pred (fetchOnce_trace_pred hf env c)
          (fun _ => pureR_trace_pred)
      · exact throwE_trace_pred
  all_goals exact throwE_trace_pred

theorem redirectLoop_trace_pred {P : Ev → Prop}
    (hf : ∀ w, P (.fetchPage w)) (hs : ∀ w, P (.searchq w))
    (env : Env) (eh tgt : Str) :
    ∀ l : List Str, ∀ e ∈ (redirectLoop env eh tgt l).trace, P e := by
  intro l
  induction l with
  | nil => exact pureR_trace_pred
  | cons name rest ih =>
    unfold redirectLoop
    cases detectTranslationRedirect eh name
    case none => exact ih
    case some page =>
      apply bindR_trace_pred
      · apply tryCatchR_trace_pred
        · exact bindR_trace_pred (fetchWithCorrection_trace_pred hf hs env page)
            (fun _ => pureR_trace_pred)
        · exact fun _ => pureR_trace_pred
      · exact fun _ => bindR_trace_pred ih (fun _ => pureR_trace_pred)

theorem baseVerbLoop_trace_pred {P : Ev → Prop}
    {recurF : Str → Res TranslationResult}
    (hr : ∀ w, ∀ e ∈ (recurF w).trace, P e) :
    ∀ entries fetched, ∀ e ∈ (baseVerbLoop recurF entries fetched).trace, P e := by
  intro entries
  induction entries with
  | nil => exact fun _ => pureR_trace_pred
  | cons entry rest ih =>
    intro fetched
    unfold baseVerbLoop
    cases entry.verbForm
    case none => exact ih fetched
    case some vf =>
      dsimp only
      split
      · exact ih fetched
      · apply bindR_trace_pred
        · apply tryCatchR_trace_pred
          · exact bindR_trace_pred (hr vf.baseVerb) (fun _ => pureR_trace_pred)
          · exact fun _ => pureR_trace_pred
        · exact fun _ => bindR_trace_pred (ih _) (fun _ => pureR_trace_pred)

theorem englishBranch_trace_pred {P : Ev → Prop}
    {recur : Option (Str → Res TranslationResult)}
    (hf : ∀ w, P (.fetchPage w)) (hs : ∀ w, P (.searchq w))
    (hr : ∀ f, recur = some f → ∀ w, ∀ e ∈ (f w).trace, P e)
    (env : Env) (html eh tgt : Str) :
    ∀ e ∈ (englishBranch env recur html eh tgt).trace, P e := by
  unfold englishBranch
  apply bindR_trace_pred (redirectLoop_trace_pred hf hs env eh tgt redirectWordTypes)
  intro _
  apply bindR_trace_pred
  · cases hrec : recur
    case none => exact pureR_trace_pred
    case some f =>
      cases detectEnglishVerbForm html
      case none => exact pureR_trace_pred
      case some vf =>
        simp only [hrec, Option.isSome_some, if_true]
        apply tryCatchR_trace_pred
        · exact bindR_trace_pred (hr f hrec vf.baseVerb) (fun _ => pureR_trace_pred)
        · exact fun _ => pureR_trace_pred
  · exact fun _ => pureR_trace_pred

theorem foreignBranch_trace_pred {P : Ev → Prop}
    {recur : Option (Str → Res TranslationResult)}
    (hr : ∀ f, recur = some f → ∀ w, ∀ e ∈ (f w).trace, P e)
    (html src : Str) :
    ∀ e ∈ (foreignBranch recur html src).trace, P e := by
  unfold foreignBranch
  apply bindR_trace_pred
  · cases hrec : recur
    case none => exact pureR_trace_pred
    case some f => exact baseVerbLoop_trace_pred (hr f hrec) _ _
  · exact fun _ => pureR_trace_pred

theorem correctionStage_trace_pred {P : Ev → Prop}
    {recur : Option (Str → Res TranslationResult)}
    (hs : ∀ w, P (.searchq w))
    (hr : ∀ f, recur = some f → ∀ w, ∀ e ∈ (f w).trace, P e)
    (env : Env) (nw : Str) (tbt : List WordTypeTranslations)
    (cf : Option Str) :
    ∀ e ∈ (correctionStage env recur nw tbt cf).trace, P e := by
  unfold correctionStage
  cases hrec : recur
  case none => exact pureR_trace_pred
  case some f =>
    dsimp only
    split
    · apply bindR_trace_pred (searchSuggestions_trace_pred hs env nw)
      intro sugg
      cases filterBestMatch sugg nw
      case none => exact pureR_trace_pred
      case some c =>
        dsimp only
        split
        · apply tryCatchR_trace_pred
          · apply bindR_trace_pred (hr f hrec c)
            intro r
            dsimp only
            split
            · exact pureR_trace_pred
            · exact pureR_trace_pred
          · exact fun _ => pureR_trace_pred
        · exact pureR_trace_pred
    · exact pureR_trace_pred

theorem translateCore_trace_pred {P : Ev → Prop}
    {recur : Option (Str → Res TranslationResult)}
    (hf : ∀ w, P (.fetchPage w)) (hs : ∀ w, P (.searchq w))
    (hr : ∀ f, recur = some f → ∀ w, ∀ e ∈ (f w).trace, P e)
    (env : Env) (word src tgt : Str) :
    ∀ e ∈ (translateCore env recur word src tgt).trace, P e := by
  unfold translateCore
  cases validateLangs src tgt
  case some err => intro e he; exact absurd he (List.not_mem_nil e)
  case none =>
    dsimp only
    apply bindR_trace_pred (fetchWithCorrection_trace_pred hf hs env _)
    intro fr
    apply bindR_trace_pred
    · split
      · exact englishBranch_trace_pred hf hs hr env _ _ _
      · exact foreignBranch_trace_pred hr _ _
    · intro tbt
      apply bindR_trace_pred (correctionStage_trace_pred hs hr env _ _ _)
      intro earlyOpt
      cases earlyOpt
      case some r => exact pureR_trace_pred
      case none =>
        dsimp only
        cases fr.correctedFrom
        case some cf => exact pureR_trace_pred
        case none => exact pureR_trace_pred

-- ---------------------------------------------------------------------------
-- Event-count lemmas and Claim C2.
-- ---------------------------------------------------------------------------

theorem countRec_bindR_pure_right {α β : Type} (L : Res α) (g : α → β) :
    countRecCalls (Res.bindR L (fun a => Res.pureR (g a))).trace =
      countRecCalls L.trace := by
  rcases L with ⟨out, tr⟩
  cases out <;> simp [Res.bindR, Res.pureR, countRecCalls]

theorem countRec_tryCatchR_pure {α : Type} (x : Res α) (v : α) :
    countRecCalls (tryCatchR x (fun _ => Res.pureR v)).trace =
      countRecCalls x.trace := by
  rcases x with ⟨out, tr⟩
  cases out <;> simp [tryCatchR, Res.pureR, countRecCalls]

theorem tryCatchR_pure_out_ok {α : Type} (x : Res α) (v : α) :
    ∃ a, (tryCatchR x (fun _ => Res.pureR v)).out = .ok a := by
  rcases x with ⟨out, tr⟩
  cases out
  case error e => exact ⟨v, rfl⟩
  case ok a => exact ⟨a, rfl⟩

theorem countRec_bindR_of_ok {α β : Type} {x : Res α} {f : α → Res β} {a : α}
    (h : x.out = .ok a) :
    countRecCalls (Res.bindR x f).trace =
      countRecCalls x.trace + countRecCalls (f a).trace := by
  rcases x with ⟨out, tr⟩
  cases out
  case error e => simp at h
  case ok b =>
    injection h with h'
    subst h'
    simp [Res.bindR, countRecCalls, List.countP_append]

theorem translateEngInner_countRec (env : Env) (w s t : Str) :
    countRecCalls (translateEngInner env w s t).trace = 0 := by
  rw [countRecCalls, List.countP_eq_zero]
  intro e he
  have hfalse : isRecCall e = false :=
    translateCore_trace_pred (P := fun e => isRecCall e = false)
      (fun _ => rfl) (fun _ => rfl) (fun f hf => Option.noConfusion hf) env w s t e he
  simp [hfalse]

theorem recurOf_countRec (env : Env) (s t w : Str) :
    countRecCalls ((recurOf env s t) w).trace = 1 := by
  show countRecCalls
    (Ev.recCall w true :: (translateCore env none w s t).trace) = 1
  rw [countRecCalls, List.countP_cons]
  have hz : List.countP isRecCall (translateCore env none w s t).trace = 0 :=
    translateEngInner_countRec env w s t
  rw [hz]
  rfl

theorem baseVerbLoop_countRec {recurF : Str → Res TranslationResult}
    (hone : ∀ w, countRecCalls (recurF w).trace = 1) :
    ∀ entries fetched,
      countRecCalls (baseVerbLoop recurF entries fetched).trace =
        (newBaseVerbs entries fetched).length := by
  intro entries
  induction entries with
  | nil =>
    intro fetched
    simp [baseVerbLoop, newBaseVerbs, Res.pureR, countRecCalls]
  | cons entry rest ih =>
    intro fetched
    unfold baseVerbLoop newBaseVerbs
    cases entry.verbForm
    case none => exact ih fetched
    case some vf =>
      dsimp only
      by_cases hmem : fetched.contains vf.baseVerb = true
      · rw [if_pos hmem, if_pos hmem]
        exact ih fetched
      · rw [if_neg hmem, if_neg hmem]
        obtain ⟨a, ha⟩ := tryCatchR_pure_out_ok
          (Res.bindR (recurF vf.baseVerb) (fun baseVerbResult =>
            Res.pureR (baseVerbResult.translationsByType.map (fun g =>
              { g with verbForm := some vf }))))
          ([] : List WordTypeTranslations)
        rw [countRec_bindR_of_ok ha, countRec_tryCatchR_pure,
          countRec_bindR_pure_right, countRec_bindR_pure_right,
          hone vf.baseVerb, ih (vf.baseVerb :: fetched)]
        simp [Nat.add_comm]

set_option maxRecDepth 200000 in
set_option maxHeartbeats 4000000 in
/-- Claim C2 (counterexample): on a page whose verb and participle regions
detect two distinct base lexemes, the outer resolution performs two
recursive lookups, not exactly one, even though the morphology check
matched. -/
theorem two_distinct_base_lexemes_two_lookups :
    countRecCalls (translateEngOuter envTwoBaseVerbs (strOf "gusta")
      (strOf "es") (strOf "en")).trace = 2 ∧
    ((parseEnglishWiktionaryForeignWord pageTwoBaseVerbs (strOf "Spanish")).filter
      (fun t => t.verbForm.isSome)).length = 2 ∧
    newBaseVerbs ((parseEnglishWiktionaryForeignWord pageTwoBaseVerbs
      (strOf "Spanish")).filter (fun t => t.verbForm.isSome)) [] =
      [strOf "alpha", strOf "beta"] := by
  refine ⟨by decide, by decide, by decide⟩

/-- Claim C2 (amended): every recursive lookup carries the suppression
flag, a suppressed call performs no recursive lookup (recursion depth is
capped at one), and the base-form loop performs exactly one suppressed
lookup per distinct not-yet-fetched detected base lexeme - one such lookup
in total only when all detections share one base lexeme. -/
theorem recursion_suppressed_and_depth_capped :
    (∀ env w s t, countRecCalls (translateEngInner env w s t).trace = 0) ∧
    (∀ env w s t x, Ev.recCall x false ∉
      (translateEngOuter env w s t).trace) ∧
    (∀ env s t entries fetched,
      countRecCalls (baseVerbLoop (recurOf env s t) entries fetched).trace =
        (newBaseVerbs entries fetched).length) := by
  refine ⟨translateEngInner_countRec, ?_, ?_⟩
  · intro env w s t x hmem
    have hr : ∀ f, (some (recurOf env s t) :
        Option (Str → Res TranslationResult)) = some f →
        ∀ w', ∀ e ∈ (f w').trace, ∀ y, e ≠ Ev.recCall y false := by
      intro f hf w' e he
      injection hf with hf'
      subst hf'
      simp only [recurOf, prependEv, List.mem_cons] at he
      rcases he with rfl | he
      · intro y h
        injection h with h1 h2
        exact Bool.noConfusion h2
      · intro y h
        have hfalse : isRecCall e = false :=
          translateCore_trace_pred (P := fun e => isRecCall e = false)
            (fun _ => rfl) (fun _ => rfl) (fun f hf => Option.noConfusion hf) env w' s t e he
        rw [h] at hfalse
        have htrue : isRecCall (Ev.recCall y false) = true := rfl
        rw [htrue] at hfalse
        exact Bool.noConfusion hfalse
    exact translateCore_trace_pred
      (P := fun e => ∀ y, e ≠ Ev.recCall y false)
      (fun _ y h => nomatch h) (fun _ y h => nomatch h)
      hr env w s t _ hmem x rfl
  · intro env s t entries fetched
    exact baseVerbLoop_countRec (recurOf_countRec env s t) entries fetched

/-- Witness for C2 at concrete inputs: no recursive lookup on a suppressed
call, no unsuppressed recursive lookup event on the outer call, and the
base-form loop count at the two-lexeme entry list. -/
theorem recursion_suppressed_witness :
    countRecCalls (translateEngInner envSelfRef (strOf "bar") (strOf "es")
      (strOf "en")).trace = 0 ∧
    Ev.recCall (strOf "foo") false ∉
      (translateEngOuter envSelfRef (strOf "foo") (strOf "es") (strOf "en")).trace ∧
    countRecCalls (baseVerbLoop (recurOf envSelfRef (strOf "es") (strOf "en"))
      [] []).trace = (newBaseVerbs [] []).length :=
  ⟨recursion_suppressed_and_depth_capped.1 envSelfRef (strOf "bar")
      (strOf "es") (strOf "en"),
    recursion_suppressed_and_depth_capped.2.1 envSelfRef (strOf "foo")
      (strOf "es") (strOf "en") (strOf "foo"),
    recursion_suppressed_and_depth_capped.2.2 envSelfRef (strOf "es")
      (strOf "en") [] []⟩

-- ---------------------------------------------------------------------------
-- Group non-emptiness lemmas and Claim C7.
-- ---------------------------------------------------------------------------

theorem jaGroupsOf_groups (tc : Str) :
    ∀ g ∈ jaGroupsOf tc, g.translations ≠ [] := by
  intro g hg
  unfold jaGroupsOf at hg
  rw [List.mem_filterMap] at hg
  obtain ⟨m, _, hm⟩ := hg
  dsimp only at hm
  split at hm
  · rename_i hne
    injection hm with hm2
    subst hm2
    dsimp only
    intro hcontra
    exact hne (List.map_eq_nil_iff.mp hcontra)
  · exact Option.noConfusion hm

theorem zhGroupOf_groups (tc : Str) :
    ∀ g ∈ zhGroupOf tc, g.translations ≠ [] := by
  intro g hg
  unfold zhGroupOf at hg
  dsimp only at hg
  split at hg
  · rename_i hne
    rw [List.mem_singleton] at hg
    subst hg
    dsimp only
    intro hcontra
    exact hne (List.map_eq_nil_iff.mp hcontra)
  · exact (List.not_mem_nil g hg).elim

theorem chineseDefGroup_groups {ls : Str} {g : WordTypeTranslations}
    (h : chineseDefGroup ls = some g) : g.translations ≠ [] := by
  unfold chineseDefGroup at h
  cases hdm : reFind true reDefnHeading ls
  case none => rw [hdm] at h; exact Option.noConfusion h
  case some dm =>
    rw [hdm] at h
    dsimp only at h
    split at h
    · rename_i hne
      injection h with h2
      subst h2
      exact hne
    · exact Option.noConfusion h

theorem parseTypeGroup_groups {ls : Str} {vfi : Option VerbFormInfo}
    {ty : Str × Str} {g : WordTypeTranslations}
    (h : parseTypeGroup ls vfi ty = some g) : g.translations ≠ [] := by
  unfold parseTypeGroup at h
  cases hfound : (match reFind true (reType1 ty.2) ls with
    | some m => some m
    | none =>
      match reFind true (reType2 ty.2) ls with
      | some m => some m
      | none => reFind true (reType3 ty.2) ls)
  case none => rw [hfound] at h; exact Option.noConfusion h
  case some m =>
    rw [hfound] at h
    dsimp only at h
    split at h
    · rename_i hne
      injection h with h2
      subst h2
      exact hne
    · exact Option.noConfusion h

theorem parseForeign_groups (html lang : Str) :
    ∀ g ∈ parseEnglishWiktionaryForeignWord html lang, g.translations ≠ [] := by
  intro g hg
  unfold parseEnglishWiktionaryForeignWord at hg
  cases hlm : (match reFind true (reLangSection lang) html with
    | some m => some m
    | none => reFind true (reLangFlex lang) html)
  case none => rw [hlm] at hg; exact (List.not_mem_nil g hg).elim
  case some lm =>
    rw [hlm] at hg
    dsimp only at hg
    split at hg
    · rename_i hne
      cases hsee : reFind true reSeeTable (sliceSection html lm reNextH2 false)
      case none =>
        rw [hsee] at hg
        exact (List.not_mem_nil g hg).elim
      case some tm =>
        rw [hsee] at hg
        dsimp only at hg
        split at hg
        · exact zhGroupOf_groups _ g hg
        · exact jaGroupsOf_groups _ g hg
    · cases hch : (if lang = strOf "Chinese" then
          chineseDefGroup (sliceSection html lm reNextH2 false) else none)
      case some gc =>
        rw [hch] at hg
        dsimp only at hg
        rw [List.mem_singleton] at hg
        subst hg
        have hlc : lang = strOf "Chinese" := by
          by_contra hlang
          rw [if_neg hlang] at hch
          exact Option.noConfusion hch
        rw [if_pos hlc] at hch
        exact chineseDefGroup_groups hch
      case none =>
        rw [hch] at hg
        dsimp only at hg
        rw [List.mem_filterMap] at hg
        obtain ⟨ty, _, hty⟩ := hg
        exact parseTypeGroup_groups hty

theorem parseTransForType_groups {html targetName : Str} {ty : Str × Str}
    {g : WordTypeTranslations}
    (h : parseTranslationsForType html targetName ty = some g) :
    g.translations ≠ [] := by
  unfold parseTranslationsForType at h
  dsimp only at h
  split at h
  · exact Option.noConfusion h
  · split at h
    · rename_i hne
      injection h with h2
      subst h2
      exact hne
    · exact Option.noConfusion h

theorem parseTransByType_groups (html tgt src : Str) :
    ∀ g ∈ parseWiktionaryTranslationsByType html tgt src, g.translations ≠ [] := by
  intro g hg
  unfold parseWiktionaryTranslationsByType at hg
  rw [List.mem_filterMap] at hg
  obtain ⟨ty, _, hty⟩ := hg
  exact parseTransForType_groups hty

theorem redirectLoop_groups (env : Env) (eh tgt : Str) :
    ∀ (l : List Str) (gs : List WordTypeTranslations),
      (redirectLoop env eh tgt l).out = .ok gs →
      ∀ g ∈ gs, g.translations ≠ [] := by
  intro l
  induction l with
  | nil =>
    intro gs h g hg
    have h0 := pureR_out_ok h
    subst h0
    exact (List.not_mem_nil g hg).elim
  | cons name rest ih =>
    intro gs h g hg
    unfold redirectLoop at h
    cases hd : detectTranslationRedirect eh name
    case none =>
      rw [hd] at h
      dsimp only at h
      exact ih gs h g hg
    case some page =>
      rw [hd] at h
      dsimp only at h
      obtain ⟨gs0, h0, h1⟩ := bindR_out_ok h
      obtain ⟨gss, h2, h3⟩ := bindR_out_ok h1
      have h4 := pureR_out_ok h3
      subst h4
      rcases List.mem_append.mp hg with hgl | hgr
      · rcases tryCatchR_out_ok h0 with hok | ⟨er, herr⟩
        · obtain ⟨fr, hf1, hf2⟩ := bindR_out_ok hok
          have h5 := pureR_out_ok hf2
          rw [← h5] at hgl
          split at hgl
          · rename_i hlen
            rw [List.mem_singleton] at hgl
            subst hgl
            dsimp only
            intro hcontra
            rw [hcontra] at hlen
            exact absurd hlen (by simp)
          · exact (List.not_mem_nil g hgl).elim
        · have h5 := pureR_out_ok herr
          rw [← h5] at hgl
          exact (List.not_mem_nil g hgl).elim
      · exact ih gss h2 g hgr

theorem baseVerbLoop_groups {recurF : Str → Res TranslationResult}
    (hrec : ∀ w r, (recurF w).out = .ok r →
      ∀ g ∈ r.translationsByType, g.translations ≠ []) :
    ∀ (entries : List WordTypeTranslations) (fetched : List Str)
      (gs : List WordTypeTranslations),
      (baseVerbLoop recurF entries fetched).out = .ok gs →
      ∀ g ∈ gs, g.translations ≠ [] := by
  intro entries
  induction entries with
  | nil =>
    intro fetched gs h g hg
    have h0 := pureR_out_ok h
    subst h0
    exact (List.not_mem_nil g hg).elim
  | cons entry rest ih =>
    intro fetched gs h g hg
    unfold baseVerbLoop at h
    cases hvf : entry.verbForm
    case none =>
      rw [hvf] at h
      dsimp only at h
      exact ih fetched gs h g hg
    case some vf =>
      rw [hvf] at h
      dsimp only at h
      split at h
      · exact ih fetched gs h g hg
      · obtain ⟨gs0, h0, h1⟩ := bindR_out_ok h
        obtain ⟨gss, h2, h3⟩ := bindR_out_ok h1
        have h4 := pureR_out_ok h3
        subst h4
        rcases List.mem_append.mp hg with hgl | hgr
        · rcases tryCatchR_out_ok h0 with hok | ⟨er, herr⟩
          · obtain ⟨br, hb1, hb2⟩ := bindR_out_ok hok
            have h5 := pureR_out_ok hb2
            rw [← h5] at hgl
            rw [List.mem_map] at hgl
            obtain ⟨g0, hg0, rfl⟩ := hgl
            exact hrec vf.baseVerb br hb1 g0 hg0
          · have h5 := pureR_out_ok herr
            rw [← h5] at hgl
            exact (List.not_mem_nil g hgl).elim
        · exact ih _ gss h2 g hgr

theorem englishBranch_groups {recur : Option (Str → Res TranslationResult)}
    (hrec : ∀ f, recur = some f → ∀ w r, (f w).out = .ok r →
      ∀ g ∈ r.translationsByType, g.translations ≠ [])
    (env : Env) (html eh tgt : Str) :
    ∀ gs, (englishBranch env recur html eh tgt).out = .ok gs →
      ∀ g ∈ gs, g.translations ≠ [] := by
  intro gs h g hg
  unfold englishBranch at h
  dsimp only at h
  obtain ⟨rg, h0, h1⟩ := bindR_out_ok h
  obtain ⟨vg, h2, h3⟩ := bindR_out_ok h1
  have h4 := pureR_out_ok h3
  subst h4
  rcases List.mem_append.mp hg with hgl | hgv
  · rcases List.mem_append.mp hgl with hgt | hgr
    · exact parseTransByType_groups eh tgt (strOf "en") g hgt
    · exact redirectLoop_groups env eh tgt redirectWordTypes rg h0 g hgr
  · cases recur with
    | none =>
      dsimp only at h2
      have h5 := pureR_out_ok h2
      rw [← h5] at hgv
      exact (List.not_mem_nil g hgv).elim
    | some f =>
      cases hevf : detectEnglishVerbForm html with
      | none =>
        simp only [hevf, Option.isSome_some, if_true] at h2
        have h5 := pureR_out_ok h2
        rw [← h5] at hgv
        exact (List.not_mem_nil g hgv).elim
      | some vf =>
        simp only [hevf, Option.isSome_some, if_true] at h2
        rcases tryCatchR_out_ok h2 with hok | ⟨er, herr⟩
        · obtain ⟨br, hb1, hb2⟩ := bindR_out_ok hok
          have h5 := pureR_out_ok hb2
          rw [← h5] at hgv
          rw [List.mem_map] at hgv
          obtain ⟨g0, hg0, rfl⟩ := hgv
          exact hrec f rfl vf.baseVerb br hb1 g0 hg0
        · have h5 := pureR_out_ok herr
          rw [← h5] at hgv
          exact (List.not_mem_nil g hgv).elim

theorem foreignBranch_groups {recur : Option (Str → Res TranslationResult)}
    (hrec : ∀ f, recur = some f → ∀ w r, (f w).out = .ok r →
      ∀ g ∈ r.translationsByType, g.translations ≠ [])
    (html src : Str) :
    ∀ gs, (foreignBranch recur html src).out = .ok gs →
      ∀ g ∈ gs, g.translations ≠ [] := by
  intro gs h g hg
  unfold foreignBranch at h
  dsimp only at h
  obtain ⟨extra, h0, h1⟩ := bindR_out_ok h
  have h2 := pureR_out_ok h1
  subst h2
  rcases List.mem_append.mp hg with hgl | hgr
  · exact parseForeign_groups html _ g hgl
  · cases recur with
    | none =>
      dsimp only at h0
      have h3 := pureR_out_ok h0
      rw [← h3] at hgr
      exact (List.not_mem_nil g hgr).elim
    | some f =>
      dsimp only at h0
      exact baseVerbLoop_groups (hrec f rfl) _ _ extra h0 g hgr

theorem correctionStage_groups {recur : Option (Str → Res TranslationResult)}
    (hrec : ∀ f, recur = some f → ∀ w r, (f w).out = .ok r →
      ∀ g ∈ r.translationsByType, g.translations ≠ [])
    (env : Env) (nw : Str) (tbt : List WordTypeTranslations)
    (cf : Option Str) :
    ∀ r0, (correctionStage env recur nw tbt cf).out = .ok (some r0) →
      ∀ g ∈ r0.translationsByType, g.translations ≠ [] := by
  intro r0 h g hg
  unfold correctionStage at h
  cases recur with
  | none => exact Option.noConfusion (pureR_out_ok h)
  | some f =>
    dsimp only at h
    split at h
    · obtain ⟨sugg, hs1, hs2⟩ := bindR_out_ok h
      cases hfb : filterBestMatch sugg nw with
      | none =>
        rw [hfb] at hs2
        exact Option.noConfusion (pureR_out_ok hs2)
      | some c =>
        rw [hfb] at hs2
        dsimp only at hs2
        split at hs2
        · rcases tryCatchR_out_ok hs2 with hok | ⟨er, herr⟩
          · obtain ⟨rr, hrr1, hrr2⟩ := bindR_out_ok hok
            split at hrr2
            · have h5 := pureR_out_ok hrr2
              injection h5 with h6
              subst h6
              exact hrec f rfl c rr hrr1 g hg
            · exact Option.noConfusion (pureR_out_ok hrr2)
          · exact Option.noConfusion (pureR_out_ok herr)
        · exact Option.noConfusion (pureR_out_ok hs2)
    · exact Option.noConfusion (pureR_out_ok h)

theorem translateCore_groups {recur : Option (Str → Res TranslationResult)}
    (hrec : ∀ f, recur = some f → ∀ w r, (f w).out = .ok r →
      ∀ g ∈ r.translationsByType, g.translations ≠ [])
    (env : Env) (word src tgt : Str) :
    ∀ r, (translateCore env recur word src tgt).out = .ok r →
      ∀ g ∈ r.translationsByType, g.translations ≠ [] := by
  intro r h g hg
  unfold translateCore at h
  cases hv : validateLangs src tgt
  case some err =>
    rw [hv] at h
    exact Except.noConfusion h
  case none =>
    rw [hv] at h
    dsimp only at h
    obtain ⟨fr, h1, h2⟩ := bindR_out_ok h
    obtain ⟨tbt, h3, h4⟩ := bindR_out_ok h2
    obtain ⟨earlyOpt, h5, h6⟩ := bindR_out_ok h4
    have htbt : ∀ g0 ∈ tbt, g0.translations ≠ [] := by
      intro g0 hg0
      by_cases hsrc : src = strOf "en"
      · rw [if_pos hsrc] at h3
        exact englishBranch_groups hrec env _ _ _ tbt h3 g0 hg0
      · rw [if_neg hsrc] at h3
        exact foreignBranch_groups hrec _ _ tbt h3 g0 hg0
    cases earlyOpt with
    | some r0 =>
      dsimp only at h6
      have h7 := pureR_out_ok h6
      subst h7
      exact correctionStage_groups hrec env _ tbt fr.correctedFrom r0 h5 g hg
    | none =>
      dsimp only at h6
      cases hcf : fr.correctedFrom
      case some cf =>
        rw [hcf] at h6
        dsimp only at h6
        have h7 := pureR_out_ok h6
        rw [← h7] at hg
        exact htbt g hg
      case none =>
        rw [hcf] at h6
        dsimp only at h6
        have h7 := pureR_out_ok h6
        rw [← h7] at hg
        exact htbt g hg

/-- Claim C7: no parser and no resolution path ever emits a word-type
group with an empty translations list - neither the foreign-word parser,
nor the translation-table parser, nor any group of a successful resolution
(including redirect-derived and base-form-derived groups). -/
theorem no_empty_groups :
    (∀ html lang, ∀ g ∈ parseEnglishWiktionaryForeignWord html lang,
      g.translations ≠ []) ∧
    (∀ html tgt src, ∀ g ∈ parseWiktionaryTranslationsByType html tgt src,
      g.translations ≠ []) ∧
    (∀ env w s t r, (translateEngOuter env w s t).out = .ok r →
      ∀ g ∈ r.translationsByType, g.translations ≠ []) := by
  refine ⟨parseForeign_groups, parseTransByType_groups, ?_⟩
  intro env w s t r h
  have hinner : ∀ f, (some (recurOf env s t) :
      Option (Str → Res TranslationResult)) = some f →
      ∀ w2 r2, (f w2).out = .ok r2 →
      ∀ g ∈ r2.translationsByType, g.translations ≠ [] := by
    intro f hf w2 r2 h2
    injection hf with hf2
    subst hf2
    exact translateCore_groups (fun f0 hf0 => Option.noConfusion hf0)
      env w2 s t r2 h2
  exact translateCore_groups hinner env w s t r h

set_option maxRecDepth 100000 in
set_option maxHeartbeats 2000000 in
/-- Witness for C7 at the concrete Spanish coffee page: the parser emits
the noun group and its translations list is non-empty. -/
theorem no_empty_groups_witness : coffeeGroup.translations ≠ [] :=
  no_empty_groups.1 pageSpanishCoffee (strOf "Spanish") coffeeGroup (by decide)

-- ---------------------------------------------------------------------------
-- Word-field and normalization lemmas and Claim C10.
-- ---------------------------------------------------------------------------

theorem bindR_trace_head {α β : Type} {x : Res α} (f : α → Res β) {e : Ev}
    (h : x.trace.head? = some e) :
    (Res.bindR x f).trace.head? = some e := by
  rcases x with ⟨out, tr⟩
  cases out with
  | error err => exact h
  | ok a =>
    dsimp only [Res.bindR]
    cases tr with
    | nil => exact Option.noConfusion h
    | cons hd tl => exact h

theorem fetchWithCorrection_trace_head (env : Env) (w : Str) :
    (fetchWithCorrection env w).trace.head? = some (.fetchPage w) := by
  unfold fetchWithCorrection
  exact bindR_trace_head _ rfl

theorem fetchWithCorrection_correctedFrom {env : Env} {w : Str} {fr : FetchOut}
    (h : (fetchWithCorrection env w).out = .ok fr) :
    fr.correctedFrom = none ∨ fr.correctedFrom = some w := by
  unfold fetchWithCorrection at h
  obtain ⟨u, _, h2⟩ := bindR_out_ok h
  cases hp : env.page w
  case ok title html =>
    rw [hp] at h2
    dsimp only at h2
    have h3 := pureR_out_ok h2
    rw [← h3]
    exact Or.inl rfl
  case notFound404 =>
    rw [hp] at h2
    dsimp only at h2
    obtain ⟨sugg, _, h4⟩ := bindR_out_ok h2
    cases hfb : filterBestMatch sugg w
    case none =>
      rw [hfb] at h4
      exact Except.noConfusion h4
    case some c =>
      rw [hfb] at h4
      dsimp only at h4
      split at h4
      · obtain ⟨r1, _, h5⟩ := bindR_out_ok h4
        have h6 := pureR_out_ok h5
        rw [← h6]
        exact Or.inr rfl
      · exact Except.noConfusion h4
  case missingTitle info =>
    rw [hp] at h2
    dsimp only at h2
    obtain ⟨sugg, _, h4⟩ := bindR_out_ok h2
    cases hfb : filterBestMatch sugg w
    case none =>
      rw [hfb] at h4
      exact Except.noConfusion h4
    case some c =>
      rw [hfb] at h4
      dsimp only at h4
      split at h4
      · obtain ⟨r1, _, h5⟩ := bindR_out_ok h4
        have h6 := pureR_out_ok h5
        rw [← h6]
        exact Or.inr rfl
      · exact Except.noConfusion h4
  case httpErr code => rw [hp] at h2; exact Except.noConfusion h2
  case apiErr info => rw [hp] at h2; exact Except.noConfusion h2
  case timeout => rw [hp] at h2; exact Except.noConfusion h2

theorem translateCore_none_word {env : Env} {w s t : Str} {r : TranslationResult}
    (h : (translateCore env none w s t).out = .ok r) : r.word = w := by
  unfold translateCore at h
  cases hv : validateLangs s t
  case some e =>
    rw [hv] at h
    exact Except.noConfusion h
  case none =>
    rw [hv] at h
    dsimp only at h
    obtain ⟨fr, h1, h2⟩ := bindR_out_ok h
    obtain ⟨tbt, h3, h4⟩ := bindR_out_ok h2
    obtain ⟨earlyOpt, h5, h6⟩ := bindR_out_ok h4
    have he : (none : Option TranslationResult) = earlyOpt := pureR_out_ok h5
    subst he
    dsimp only at h6
    cases hcf : fr.correctedFrom
    case none =>
      rw [hcf] at h6
      dsimp only at h6
      have h7 := pureR_out_ok h6
      rw [← h7]
    case some cf =>
      rw [hcf] at h6
      dsimp only at h6
      have h7 := pureR_out_ok h6
      rw [← h7]

theorem correctionStage_meta {recur : Option (Str → Res TranslationResult)}
    (hrec : ∀ f, recur = some f → ∀ w2 r2, (f w2).out = .ok r2 → r2.word = w2)
    (env : Env) (nw : Str) (tbt : List WordTypeTranslations)
    (cf : Option Str) :
    ∀ r0, (correctionStage env recur nw tbt cf).out = .ok (some r0) →
      r0.searchedFor = some nw ∧ r0.foundAs = some r0.word := by
  intro r0 h
  unfold correctionStage at h
  cases recur with
  | none => exact Option.noConfusion (pureR_out_ok h)
  | some f =>
    dsimp only at h
    split at h
    · obtain ⟨sugg, hs1, hs2⟩ := bindR_out_ok h
      cases hfb : filterBestMatch sugg nw with
      | none =>
        rw [hfb] at hs2
        exact Option.noConfusion (pureR_out_ok hs2)
      | some c =>
        rw [hfb] at hs2
        dsimp only at hs2
        split at hs2
        · rcases tryCatchR_out_ok hs2 with hok | ⟨er, herr⟩
          · obtain ⟨rr, hrr1, hrr2⟩ := bindR_out_ok hok
            split at hrr2
            · have h5 := pureR_out_ok hrr2
              injection h5 with h6
              subst h6
              refine ⟨rfl, ?_⟩
              have hw := hrec f rfl c rr hrr1
              show some c = some rr.word
              rw [hw]
            · exact Option.noConfusion (pureR_out_ok hrr2)
          · exact Option.noConfusion (pureR_out_ok herr)
        · exact Option.noConfusion (pureR_out_ok hs2)
    · exact Option.noConfusion (pureR_out_ok h)

theorem translateCore_word_meta {recur : Option (Str → Res TranslationResult)}
    (hrec : ∀ f, recur = some f → ∀ w2 r2, (f w2).out = .ok r2 → r2.word = w2)
    (env : Env) (w s t : Str) (r : TranslationResult)
    (h : (translateCore env recur w s t).out = .ok r) :
    (r.searchedFor = none ∨
      r.searchedFor = some (reReplaceAll false reSpaces w (strOf "_"))) ∧
    (r.word = w ∨
      (r.searchedFor = some (reReplaceAll false reSpaces w (strOf "_")) ∧
       r.foundAs = some r.word)) := by
  unfold translateCore at h
  cases hv : validateLangs s t
  case some e =>
    rw [hv] at h
    exact Except.noConfusion h
  case none =>
    rw [hv] at h
    dsimp only at h
    obtain ⟨fr, h1, h2⟩ := bindR_out_ok h
    obtain ⟨tbt, h3, h4⟩ := bindR_out_ok h2
    obtain ⟨earlyOpt, h5, h6⟩ := bindR_out_ok h4
    cases earlyOpt with
    | some r0 =>
      dsimp only at h6
      have h7 := pureR_out_ok h6
      subst h7
      have hm := correctionStage_meta hrec env _ tbt fr.correctedFrom r0 h5
      exact ⟨Or.inr hm.1, Or.inr hm⟩
    | none =>
      dsimp only at h6
      cases hcf : fr.correctedFrom
      case none =>
        rw [hcf] at h6
        dsimp only at h6
        have h7 := pureR_out_ok h6
        constructor
        · rw [← h7]
          exact Or.inl rfl
        · rw [← h7]
          exact Or.inl rfl
      case some cf =>
        rw [hcf] at h6
        dsimp only at h6
        have h7 := pureR_out_ok h6
        have hcw : cf = reReplaceAll false reSpaces w (strOf "_") := by
          rcases fetchWithCorrection_correctedFrom h1 with hn | hs
          · rw [hcf] at hn
            exact Option.noConfusion hn
          · rw [hcf] at hs
            injection hs
        constructor
        · rw [← h7, hcw]
          exact Or.inr rfl
        · rw [← h7]
          exact Or.inl rfl

set_option maxRecDepth 200000 in
set_option maxHeartbeats 4000000 in
/-- Claim C10 (counterexample): on the accent-correction retry path the
returned word field is the corrected spelling, not the original input -
resolving cafe against an environment where only the accented spelling has
Spanish content yields word café with searchedFor cafe and foundAs café. -/
theorem retry_result_word_not_original :
    resWord (translateEngOuter envCafeRetry (strOf "cafe") (strOf "es")
      (strOf "en")) = strOf "café" ∧
    resSearchedFor (translateEngOuter envCafeRetry (strOf "cafe") (strOf "es")
      (strOf "en")) = some (strOf "cafe") ∧
    resFoundAs (translateEngOuter envCafeRetry (strOf "cafe") (strOf "es")
      (strOf "en")) = some (strOf "café") ∧
    resWord (translateEngOuter envCafeRetry (strOf "cafe") (strOf "es")
      (strOf "en")) ≠ strOf "cafe" := by decide

/-- Claim C10 (amended): the first network operation of a resolution is the
page fetch of the underscore-normalized word; on success the correction
metadata searchedFor, when present, is exactly that normalized form; and
the word field is the original input except on a successful correction
retry, where searchedFor holds the normalized input and foundAs holds the
corrected word that the word field carries. -/
theorem resolution_word_and_normalization (env : Env) (w s t : Str)
    (r : TranslationResult)
    (h : (translateEngOuter env w s t).out = .ok r) :
    (translateEngOuter env w s t).trace.head? =
      some (.fetchPage (reReplaceAll false reSpaces w (strOf "_"))) ∧
    (r.searchedFor = none ∨
      r.searchedFor = some (reReplaceAll false reSpaces w (strOf "_"))) ∧
    (r.word = w ∨
      (r.searchedFor = some (reReplaceAll false reSpaces w (strOf "_")) ∧
       r.foundAs = some r.word)) := by
  have hrec : ∀ f, (some (recurOf env s t) :
      Option (Str → Res TranslationResult)) = some f →
      ∀ w2 r2, (f w2).out = .ok r2 → r2.word = w2 := by
    intro f hf w2 r2 h2
    injection hf with hf2
    subst hf2
    exact translateCore_none_word h2
  have hmeta := translateCore_word_meta hrec env w s t r h
  refine ⟨?_, hmeta.1, hmeta.2⟩
  have hv : validateLangs s t = none := by
    cases hv2 : validateLangs s t
    case none => rfl
    case some e =>
      exfalso
      revert h
      unfold translateEngOuter translateCore
      rw [hv2]
      exact fun h0 => Except.noConfusion h0
  show (translateCore env (some (recurOf env s t)) w s t).trace.head? = _
  unfold translateCore
  rw [hv]
  dsimp only
  exact bindR_trace_head _ (fetchWithCorrection_trace_head env _)

set_option maxRecDepth 200000 in
set_option maxHeartbeats 4000000 in
/-- Witness for the amended C10 at the concrete retry scenario. -/
theorem resolution_word_and_normalization_witness :
    (translateEngOuter envCafeRetry (strOf "cafe") (strOf "es")
        (strOf "en")).trace.head? =
      some (.fetchPage (reReplaceAll false reSpaces (strOf "cafe")
        (strOf "_"))) ∧
    (cafeResult.searchedFor = none ∨
      cafeResult.searchedFor = some (reReplaceAll false reSpaces
        (strOf "cafe") (strOf "_"))) ∧
    (cafeResult.word = strOf "cafe" ∨
      (cafeResult.searchedFor = some (reReplaceAll false reSpaces
        (strOf "cafe") (strOf "_")) ∧
       cafeResult.foundAs = some cafeResult.word)) :=
  resolution_word_and_normalization envCafeRetry (strOf "cafe") (strOf "es")
    (strOf "en") cafeResult (by decide)

end Wikiglot
